import Mathlib

/-!
# ld65 image writer (`src/ld65/img.c`)

A shallow embedding of `ImgWriteTarget` and the functions it is built from.

Pointers are natural numbers; the objects they point to live in the stores of
a `World`.  The collaborators that `img.c` only calls (the C library stream,
`Write16`, `SegWrite`, `AlignAddr`, `CheckUnresolvedImports`, `Error`,
`Internal`) are modelled at their boundary.  `Print`, `PrintBoolVal`,
`PrintNumVal` and `ftell` only feed the diagnostic channel and are left out.

Conventions:

* `unsigned` is 32 bits wide and `unsigned long` 64 bits; arithmetic that can
  wrap is written with an explicit `% 2 ^ w`.
* `Error` and `Internal` do not return: a run that reaches one of them ends
  there, and its `Outcome` carries the failure and the state at that point.
* Writing to the open stream does not fail; `fopen`, `fclose` and `SegWrite`
  can.
* The stream keeps, next to its bytes, the record of the `SegWrite` calls made
  on it, so that "this segment was written" can be said of a run.
-/

namespace Ld65

/-! ## Machine integers -/

/-- Width of `unsigned` (the type of `ImgDesc.Undef`). -/
def UINT_BITS : Nat := 32

/-- Width of `unsigned long` (the type of addresses, sizes and alignments). -/
def ULONG_BITS : Nat := 64

/-! ## Data -/

/-- Modelled from the spec: `struct Segment` (segments.h is not part of the
sources); the fields `img.c` reads or writes.  The content of the segment is
reached through `SegWrite`. -/
structure Segment where
  Size : Nat
  PC : Nat
  Dumped : Bool

/-- Modelled from the spec: `struct SegDesc` (config.h is not part of the
sources); the fields `img.c` reads.  `Seg` is a `Segment*`, `Load` a
`MemoryArea*`. -/
structure SegDesc where
  Name : Nat
  Seg : Nat
  Flags : Nat
  Load : Nat
  Addr : Nat
  LoadAlignment : Nat

/-- Modelled from the spec: the BSS bit of `SegDesc.Flags` (config.h is not
part of the sources). -/
def SF_BSS : Nat := 0x0002

/-- Modelled from the spec: `struct MemoryArea` (memarea.h is not part of the
sources); `SegList` is the collection of `SegDesc*` in list order. -/
structure MemoryArea where
  Name : Nat
  SegList : List Nat

/-- Modelled from the spec: `struct File` (config.h is not part of the
sources); `MemoryAreas` is the collection of `MemoryArea*` in list order. -/
structure File where
  Name : Nat
  MemoryAreas : List Nat

/-- The descriptor `struct ImgDesc`.  `F` is the `FILE*` (`none` is the null
pointer), `Filename` the `const char*` (`none` is the null pointer). -/
structure ImgDesc where
  Undef : Nat
  F : Option Nat
  Filename : Option Nat
deriving DecidableEq, Repr

/-- The output stream behind `D->F`: whether it is open, the bytes written to
it since it was opened, and the `Segment*` arguments of the `SegWrite` calls
made on it since it was opened. -/
structure Stream where
  IsOpen : Bool
  Data : List Nat
  SegWrites : List Nat
deriving DecidableEq, Repr

/-- The program state `ImgWriteTarget` runs in: the object stores, the
descriptor `D` points to, and the output stream. -/
structure World where
  Files : Nat → File
  Areas : Nat → MemoryArea
  Descs : Nat → SegDesc
  Segs : Nat → Segment
  D : ImgDesc
  Out : Stream

/-- What the collaborators answer during one run: the names that
`CheckUnresolvedImports` reports, what `fopen` returns, whether `fclose`
succeeds, and the bytes `SegWrite` produces for a segment (`none`: `SegWrite`
ends the run with an error). -/
structure Env where
  Unresolved : List Nat
  Open : Option Nat
  CloseOk : Bool
  Content : Nat → Option (List Nat)

/-- The ways a run ends other than by returning. -/
inductive Failure where
  | UnresolvedExternals (Undef : Nat)
  | CannotOpen (Filename : Option Nat)
  | InvalidAlignment (Name Addr LoadAlignment : Nat)
  | EncodingError (Seg : Nat)
  | CannotWrite (Filename : Option Nat)
deriving DecidableEq, Repr

/-- Result of running a piece of code: `Err = none` when it returned, the
failure that ended the run otherwise; `W` is the state at that point. -/
structure Outcome where
  Err : Option Failure
  W : World

/-- Normal return. -/
def Outcome.ok (w : World) : Outcome := { Err := none, W := w }

/-- Sequencing: the continuation runs only when the first part returned. -/
def Outcome.bind (o : Outcome) (k : World → Outcome) : Outcome :=
  match o.Err with
  | none => k o.W
  | some _ => o

/-- Modelled from the spec: `Error` (error.h is not part of the sources)
reports a fatal error and does not return. -/
def Error (e : Failure) (w : World) : Outcome := { Err := some e, W := w }

/-- Modelled from the spec: `Internal` (error.h is not part of the sources)
reports an internal error and does not return. -/
def Internal (e : Failure) (w : World) : Outcome := { Err := some e, W := w }

/-- A `for (I = 0; I < CollCount (C); ++I)` loop over a collection whose body
may end the run. -/
def forEach {α : Type} (body : World → α → Outcome) : List α → World → Outcome
  | [], w => Outcome.ok w
  | x :: xs, w => (body w x).bind (forEach body xs)

/-! ## Collaborators -/

/-- Modelled from the spec: `AlignAddr` (common/alignment.c is not part of the
sources) rounds `Addr` up to the next multiple of `Alignment`, in
`unsigned long` arithmetic.  `Alignment` is at least 1. -/
def AlignAddr (Addr Alignment : Nat) : Nat :=
  (Addr + (if Addr % Alignment = 0 then 0 else Alignment - Addr % Alignment)) % 2 ^ ULONG_BITS

/-- Modelled from the spec: `Write16` (fileio.c is not part of the sources)
writes the low 16 bits of `Val`, low byte first. -/
def Write16 (F : Stream) (Val : Nat) : Stream :=
  { F with Data := F.Data ++ [Val % 256, Val / 256 % 256] }

/-- Modelled from the spec: `SegWrite` (segments.c is not part of the sources)
writes the content bytes of the segment to the stream; `none` when it ends the
run with an error. -/
def SegWrite (env : Env) (F : Stream) (Seg : Nat) : Option Stream :=
  match env.Content Seg with
  | some bytes => some { F with Data := F.Data ++ bytes, SegWrites := F.SegWrites ++ [Seg] }
  | none => none

/-- Modelled from the spec: `CheckUnresolvedImports` (exports.c is not part of
the sources) calls `F` once for every unresolved external. -/
def CheckUnresolvedImports (env : Env) (F : Nat → ImgDesc → Nat × ImgDesc) (D : ImgDesc) :
    ImgDesc :=
  env.Unresolved.foldl (fun d Name => (F Name d).2) D

/-- Modelled from the spec: `fopen (Filename, "wb")` of the C library: a null
pointer on failure, else a fresh, empty, open stream. -/
def fopen (env : Env) (Out : Stream) : Option Nat × Stream :=
  match env.Open with
  | some h => (some h, { IsOpen := true, Data := [], SegWrites := [] })
  | none => (none, Out)

/-- Modelled from the spec: `fclose` of the C library: the stream is closed
whatever the result; the result is nonzero on failure. -/
def fclose (env : Env) (Out : Stream) : Nat × Stream :=
  (if env.CloseOk then 0 else 1, { Out with IsOpen := false })

/-! ## Code of `img.c` -/

/-- `NewImgDesc`: a new descriptor. -/
def NewImgDesc : ImgDesc := { Undef := 0, F := none, Filename := none }

/-- `ImgUnresolved`: bump the counter and return zero. -/
def ImgUnresolved (_Name : Nat) (D : ImgDesc) : Nat × ImgDesc :=
  (0, { D with Undef := (D.Undef + 1) % 2 ^ UINT_BITS })

/-- `S->Seg->Dumped = 1` for the segment at `Seg`. -/
def World.setDumped (w : World) (Seg : Nat) : World :=
  { w with Segs := fun p => if p = Seg then { w.Segs p with Dumped := true } else w.Segs p }

/-- The value of `DoWrite` in the body of the loop of `ImgWriteMem` (lines
151-153): `(S->Flags & SF_BSS) == 0 && S->Load == M && S->Seg->Dumped == 0`. -/
def DoWrite (w : World) (M : Nat) (S : SegDesc) : Bool :=
  (S.Flags &&& SF_BSS == 0) && (S.Load == M) && ((w.Segs S.Seg).Dumped == false)

/-- The block of `if (DoWrite)` in the body of the loop of `ImgWriteMem`
(lines 167-179): the alignment test, the two `Write16` calls, `SegWrite`. -/
def ImgWriteMemWrite (env : Env) (w : World) (S : SegDesc) : Outcome :=
  -- if (S->Addr != AlignAddr (S->Addr, S->LoadAlignment)) Internal (...)
  if S.Addr != AlignAddr S.Addr S.LoadAlignment then
    Internal (Failure.InvalidAlignment S.Name S.Addr S.LoadAlignment) w
  else
    -- Write16 (D->F, S->Seg->PC); Write16 (D->F, S->Seg->Size);
    let F1 := Write16 w.Out (w.Segs S.Seg).PC
    let F2 := Write16 F1 (w.Segs S.Seg).Size
    -- SegWrite (D->Filename, D->F, S->Seg, ImgWriteExpr, D);
    match SegWrite env F2 S.Seg with
    | some F3 => Outcome.ok { w with Out := F3 }
    | none => Error (Failure.EncodingError S.Seg) { w with Out := F2 }

/-- The body of the loop of `ImgWriteMem` (lines 140-185): one visit of the
segment descriptor at `I` in the memory area at `M`. -/
def ImgWriteMemBody (env : Env) (M : Nat) (w : World) (I : Nat) : Outcome :=
  -- SegDesc* S = CollAtUnchecked (&M->SegList, I);
  let S := w.Descs I
  -- if (DoWrite) { ... }
  ((if DoWrite w M S then ImgWriteMemWrite env w S else Outcome.ok w)).bind fun w1 =>
    -- if (S->Load == M) S->Seg->Dumped = 1;
    if S.Load == M then Outcome.ok (w1.setDumped S.Seg) else Outcome.ok w1

/-- `ImgWriteMem`: write the segments of one memory area. -/
def ImgWriteMem (env : Env) (w : World) (M : Nat) : Outcome :=
  forEach (ImgWriteMemBody env M) (w.Areas M).SegList w

/-- `ImgWriteTarget`: write the output file for the `File` at `F`. -/
def ImgWriteTarget (env : Env) (F : Nat) (w : World) : Outcome :=
  -- D->Filename = GetString (F->Name);
  let w1 := { w with D := { w.D with Filename := some (w.Files F).Name } }
  -- D->Undef = 0; CheckUnresolvedImports (ImgUnresolved, D);
  let w2 := { w1 with D := { w1.D with Undef := 0 } }
  let w3 := { w2 with D := CheckUnresolvedImports env ImgUnresolved w2.D }
  if w3.D.Undef > 0 then
    Error (Failure.UnresolvedExternals w3.D.Undef) w3
  else
    -- D->F = fopen (D->Filename, "wb"); if (D->F == 0) Error (...)
    let r := fopen env w3.Out
    let w4 := { w3 with D := { w3.D with F := r.1 }, Out := r.2 }
    if w4.D.F = none then
      Error (Failure.CannotOpen w4.D.Filename) w4
    else
      -- for (I = 0; I < CollCount (&F->MemoryAreas); ++I) ImgWriteMem (D, M);
      (forEach (ImgWriteMem env) (w4.Files F).MemoryAreas w4).bind fun w5 =>
        -- if (fclose (D->F) != 0) Error (...)
        let c := fclose env w5.Out
        let w6 := { w5 with Out := c.2 }
        if c.1 != 0 then
          Error (Failure.CannotWrite w6.D.Filename) w6
        else
          -- D->F = 0; D->Filename = 0;
          Outcome.ok { w6 with D := { w6.D with F := none, Filename := none } }

/-! ## Visits

One visit is one execution of the body of the loop of `ImgWriteMem`: a
segment descriptor `I` met in the segment list of the memory area `M`. -/

/-- A visit: the memory area `M` and the segment descriptor `I`. -/
structure Visit where
  M : Nat
  I : Nat
deriving DecidableEq, Repr

/-- The visits `ImgWriteMem` makes for the memory area at `M`, in order. -/
def areaVisits (w : World) (M : Nat) : List Visit :=
  (w.Areas M).SegList.map fun I => { M := M, I := I }

/-- The visits `ImgWriteTarget` makes for the file at `F`: memory areas in
list order, segments in list order within each area. -/
def visits (w : World) (F : Nat) : List Visit :=
  (w.Files F).MemoryAreas.flatMap (areaVisits w)

/-- One visit, as a step on worlds. -/
def visit (env : Env) (w : World) (v : Visit) : Outcome :=
  ImgWriteMemBody env v.M w v.I

/-- Each element of a list paired with the elements that precede it (after
the given history), in order. -/
def withHistory : List Visit → List Visit → List (List Visit × Visit)
  | _, [] => []
  | pre, v :: vs => (pre, v) :: withHistory (pre ++ [v]) vs

/-! ## The emission rules in the words of the specification

These definitions do not run the code: they describe a run by the list of
its visits and the state before the run. -/

/-- The segment descriptor met at a visit. -/
def Visit.desc (w : World) (v : Visit) : SegDesc := w.Descs v.I

/-- Specification `isBss`: the classification flag of the descriptor. -/
def isBss (S : SegDesc) : Bool := S.Flags &&& SF_BSS != 0

/-- Specification `isLoadArea`: the area of the visit is the load area of the
segment. -/
def isLoadArea (w : World) (v : Visit) : Bool := (v.desc w).Load == v.M

/-- Specification `alreadyDumped` after the visits `pre`: the segment was
dumped before the run, or one of the visits `pre` met it in its load area. -/
def dumpedAt (w : World) (pre : List Visit) (Seg : Nat) : Bool :=
  (w.Segs Seg).Dumped || pre.any fun u => isLoadArea w u && ((u.desc w).Seg == Seg)

/-- Specification write decision for the visit `v` that follows the visits
`pre`: `!isBss && isLoadArea && !alreadyDumped`. -/
def writeDecision (w : World) (pre : List Visit) (v : Visit) : Bool :=
  !isBss (v.desc w) && isLoadArea w v && !dumpedAt w pre (v.desc w).Seg

/-- The address field then the size field of a segment, each 2 bytes, low
byte first. -/
def header (w : World) (Seg : Nat) : List Nat :=
  [(w.Segs Seg).PC % 256, (w.Segs Seg).PC / 256 % 256,
   (w.Segs Seg).Size % 256, (w.Segs Seg).Size / 256 % 256]

/-- The triple of a segment: address, size, content bytes. -/
def triple (env : Env) (w : World) (Seg : Nat) : List Nat :=
  header w Seg ++ (env.Content Seg).getD []

/-- The image: one triple for every visit at which the write decision holds,
nothing for the others, in visit order. -/
def image (env : Env) (w : World) (pre vs : List Visit) : List Nat :=
  (withHistory pre vs).flatMap fun p =>
    if writeDecision w p.1 p.2 then triple env w (p.2.desc w).Seg else []

/-- The segments of the visits at which the write decision holds, in visit
order. -/
def written (w : World) (pre vs : List Visit) : List Nat :=
  (withHistory pre vs).flatMap fun p =>
    if writeDecision w p.1 p.2 then [(p.2.desc w).Seg] else []

/-- The address and the alignment of a descriptor are `unsigned long` values
and the alignment is at least 1. -/
def SegDesc.Representable (S : SegDesc) : Prop :=
  S.Addr < 2 ^ ULONG_BITS ∧ 0 < S.LoadAlignment ∧ S.LoadAlignment < 2 ^ ULONG_BITS

/-- Specification alignment requirement: `address mod loadAlignment == 0`. -/
def SegDesc.Aligned (S : SegDesc) : Prop := S.Addr % S.LoadAlignment = 0

instance (S : SegDesc) : Decidable S.Representable := by
  unfold SegDesc.Representable; infer_instance

instance (S : SegDesc) : Decidable S.Aligned := by
  unfold SegDesc.Aligned; infer_instance

/-- The state after the visits `pre` of a run that started in `w`, with the
output stream `out`: only the Dumped flags differ from `w`. -/
def World.reached (w : World) (pre : List Visit) (out : Stream) : World :=
  { w with
    Segs := fun s => { w.Segs s with Dumped := dumpedAt w pre s }
    Out := out }

/-- The output stream after the visits `vs` that follow `pre`, for a run in
which no visit fails. -/
def outAfter (env : Env) (w : World) (pre vs : List Visit) (out : Stream) : Stream :=
  { IsOpen := out.IsOpen
    Data := out.Data ++ image env w pre vs
    SegWrites := out.SegWrites ++ written w pre vs }

/-- A visit (with the visits before it) that can not end the run: when the
write decision holds, the descriptor is representable and aligned and
`SegWrite` yields the content of the segment. -/
def Passes (env : Env) (w : World) (p : List Visit × Visit) : Prop :=
  writeDecision w p.1 p.2 = true →
    (p.2.desc w).Representable ∧ (p.2.desc w).Aligned ∧
      (env.Content (p.2.desc w).Seg).isSome = true

instance (env : Env) (w : World) (p : List Visit × Visit) : Decidable (Passes env w p) := by
  unfold Passes; infer_instance

/-- What a run leaves untouched: the stores of files, memory areas and segment
descriptors and the descriptor `D`; of a segment, its size and address; and
a Dumped flag that was set stays set. -/
def World.Frame (w w1 : World) : Prop :=
  w1.Files = w.Files ∧ w1.Areas = w.Areas ∧ w1.Descs = w.Descs ∧ w1.D = w.D ∧
    ∀ s, (w1.Segs s).Size = (w.Segs s).Size ∧ (w1.Segs s).PC = (w.Segs s).PC ∧
      ((w.Segs s).Dumped = true → (w1.Segs s).Dumped = true)

/-- The state in which `ImgWriteTarget` enters its loop over the memory areas
when nothing is unresolved and `fopen` returned `h`. -/
def World.opened (w : World) (F h : Nat) : World :=
  { w with
    D := { Undef := 0, F := some h, Filename := some (w.Files F).Name }
    Out := { IsOpen := true, Data := [], SegWrites := [] } }

/-- The statements of `ImgWriteTarget` that follow its loop over the memory
areas: close the file, reset the file and the filename. -/
def closeAndReset (env : Env) (w5 : World) : Outcome :=
  let c := fclose env w5.Out
  let w6 := { w5 with Out := c.2 }
  if c.1 != 0 then
    Error (Failure.CannotWrite w6.D.Filename) w6
  else
    Outcome.ok { w6 with D := { w6.D with F := none, Filename := none } }

/-- The state after the visits `vs` of a run that opened its stream and in
which no visit failed, before the closing statements. -/
def World.visited (env : Env) (w : World) (F h : Nat) (vs : List Visit) : World :=
  (w.opened F h).reached vs
    { IsOpen := true, Data := image env w [] vs, SegWrites := written w [] vs }

/-! ## Concrete scenarios -/

/-- An empty store entry for segments. -/
def noSegment : Segment := { Size := 0, PC := 0, Dumped := false }

/-- An empty store entry for segment descriptors. -/
def noSegDesc : SegDesc :=
  { Name := 0, Seg := 0, Flags := 0, Load := 0, Addr := 0, LoadAlignment := 1 }

/-- A store holding the given objects at pointers 0, 1, ... and `d` elsewhere. -/
def store {α : Type} (d : α) (xs : List α) : Nat → α := fun p => xs.getD p d

/-- A collaborator set in which nothing is unresolved, the stream opens and
closes, and segment 0 has content `01 02 03`. -/
def envOk : Env :=
  { Unresolved := [], Open := some 1, CloseOk := true,
    Content := fun p => if p = 0 then some [1, 2, 3] else some [] }

/-- Scenario A: one area holding segment A (load = this area, not BSS, address
0x2000, size 3, alignment 1). -/
def worldA : World :=
  { Files := store ⟨0, []⟩ [⟨0, [0]⟩],
    Areas := store ⟨0, []⟩ [⟨0, [0]⟩],
    Descs := store noSegDesc [⟨0, 0, 0, 0, 0x2000, 1⟩],
    Segs := store noSegment [⟨3, 0x2000, false⟩],
    D := NewImgDesc,
    Out := ⟨false, [], []⟩ }

/-- Scenario C: Area1 (pointer 0) holds segment C with load = Area1; Area2
(pointer 1) holds the same segment. -/
def worldC : World :=
  { Files := store ⟨0, []⟩ [⟨0, [0, 1]⟩],
    Areas := store ⟨0, []⟩ [⟨0, [0]⟩, ⟨1, [0]⟩],
    Descs := store noSegDesc [⟨0, 0, 0, 0, 0x2000, 1⟩],
    Segs := store noSegment [⟨3, 0x2000, false⟩],
    D := NewImgDesc,
    Out := ⟨false, [], []⟩ }

/-- Scenario A with its memory area listed twice in the file. -/
def worldTwice : World :=
  { worldA with Files := store ⟨0, []⟩ [⟨0, [0, 0]⟩] }

/-- Collaborators reporting one unresolved external. -/
def envOne : Env := { envOk with Unresolved := [7] }

/-- Scenario A with a descriptor left over from an earlier use: the counter
holds 5. -/
def worldStale : World := { worldA with D := ⟨5, some 9, some 9⟩ }

/-- Scenario A with the segment at the odd address 0x2001 and load alignment
2. -/
def worldMis : World :=
  { worldA with
    Descs := store noSegDesc [⟨0, 0, 0, 0, 0x2001, 2⟩]
    Segs := store noSegment [⟨3, 0x2001, false⟩] }

/-- One area holding a BSS segment at the odd address 0x4001 with load
alignment 2 (load = this area, size 10). -/
def worldMisBss : World :=
  { worldA with
    Descs := store noSegDesc [⟨0, 0, SF_BSS, 0, 0x4001, 2⟩]
    Segs := store noSegment [⟨10, 0x4001, false⟩] }

/-- Scenario B: one area holding segment B (BSS, load = this area, address
0x4000, size 10). -/
def worldB : World :=
  { worldA with
    Descs := store noSegDesc [⟨0, 0, SF_BSS, 0, 0x4000, 1⟩]
    Segs := store noSegment [⟨10, 0x4000, false⟩] }

/-- Collaborators as in `envOk`, except that `SegWrite` fails. -/
def envNoContent : Env := { envOk with Content := fun _ => none }

/-- Scenario A with a descriptor address 0x2000 and load alignment 2, the
address `PC` of the segment being 0x2001. -/
def worldSplit : World :=
  { worldA with
    Descs := store noSegDesc [⟨0, 0, 0, 0, 0x2000, 2⟩]
    Segs := store noSegment [⟨3, 0x2001, false⟩] }

/-- Scenario A with the segment at the address 0x12000. -/
def worldFar : World :=
  { worldA with
    Descs := store noSegDesc [⟨0, 0, 0, 0, 0x12000, 1⟩]
    Segs := store noSegment [⟨3, 0x12000, false⟩] }

/-- Scenario A with a segment of size 0x10000. -/
def worldBig : World :=
  { worldA with Segs := store noSegment [⟨0x10000, 0x2000, false⟩] }

/-- Collaborators as in `envOk`, segment 0 having 0x10000 content bytes. -/
def envBig : Env := { envOk with Content := fun _ => some (List.replicate 0x10000 0) }

/-- Modelled from the spec: the value of a 2-byte little-endian field, as a
reader of the image decodes it. -/
def decode16 (lo hi : Nat) : Nat := lo + 256 * hi

/-- Every segment that the visits of the file meet in its load area is
already marked Dumped. -/
def Settled (w : World) (F : Nat) : Prop :=
  ∀ v ∈ visits w F, isLoadArea w v = true → (w.Segs (v.desc w).Seg).Dumped = true

/-- The state after `n` runs of `ImgWriteTarget` on the same file. -/
def afterRuns (env : Env) (F : Nat) : Nat → World → World
  | 0, w => w
  | n + 1, w => (ImgWriteTarget env F (afterRuns env F n w)).W

/-- One area holding segment A of scenario A and then a second segment at
the odd address 0x3001 with load alignment 2. -/
def worldPartial : World :=
  { worldA with
    Areas := store ⟨0, []⟩ [⟨0, [0, 1]⟩]
    Descs := store noSegDesc [⟨0, 0, 0, 0, 0x2000, 1⟩, ⟨1, 1, 0, 0, 0x3001, 2⟩]
    Segs := store noSegment [⟨3, 0x2000, false⟩, ⟨0, 0x3001, false⟩] }

/-- Scenario A with the segment at the address 0x10002 (descriptor address
and `PC` alike) and load alignment 3. -/
def worldWrap : World :=
  { worldA with
    Descs := store noSegDesc [⟨0, 0, 0, 0, 0x10002, 3⟩]
    Segs := store noSegment [⟨3, 0x10002, false⟩] }

/-! ## Basic facts -/

theorem Outcome.bind_ok (w : World) (k : World → Outcome) : (Outcome.ok w).bind k = k w := rfl

theorem Outcome.bind_err (e : Failure) (w : World) (k : World → Outcome) :
    (Outcome.mk (some e) w).bind k = Outcome.mk (some e) w := rfl

theorem Outcome.bind_assoc (o : Outcome) (k k2 : World → Outcome) :
    (o.bind k).bind k2 = o.bind fun w => (k w).bind k2 := by
  obtain ⟨e, w⟩ := o
  cases e <;> rfl

theorem Outcome.bind_congr (o : Outcome) (k k2 : World → Outcome) (h : k o.W = k2 o.W) :
    o.bind k = o.bind k2 := by
  obtain ⟨e, w⟩ := o
  cases e
  · exact h
  · rfl

theorem forEach_append {α : Type} (body : World → α → Outcome) (xs ys : List α) (w : World) :
    forEach body (xs ++ ys) w = (forEach body xs w).bind (forEach body ys) := by
  induction xs generalizing w with
  | nil => rfl
  | cons x xs ih =>
    simp only [List.cons_append, forEach, Outcome.bind_assoc]
    exact Outcome.bind_congr _ _ _ (ih _)

theorem forEach_map {α β : Type} (body : World → α → Outcome) (f : β → α) (xs : List β)
    (w : World) : forEach body (xs.map f) w = forEach (fun w x => body w (f x)) xs w := by
  induction xs generalizing w with
  | nil => rfl
  | cons x xs ih =>
    simp only [List.map_cons, forEach]
    exact Outcome.bind_congr _ _ _ (ih _)

/-- A property of worlds kept by every execution of the body is kept by the
loop, whether the loop returns or not. -/
theorem forEach_preserves {α : Type} (body : World → α → Outcome) (P : World → Prop)
    (hb : ∀ w x, P w → P (body w x).W) (xs : List α) (w : World) (h : P w) :
    P (forEach body xs w).W := by
  induction xs generalizing w with
  | nil => exact h
  | cons x xs ih =>
    have h1 := hb w x h
    simp only [forEach]
    generalize body w x = o at h1
    obtain ⟨e, w1⟩ := o
    cases e
    · exact ih w1 h1
    · exact h1

theorem ImgWriteMem_eq (env : Env) (w : World) (M : Nat) :
    ImgWriteMem env w M = forEach (visit env) (areaVisits w M) w := by
  unfold ImgWriteMem areaVisits
  rw [forEach_map]
  rfl

/-! ## One visit -/

theorem dumpedAt_snoc (w : World) (pre : List Visit) (v : Visit) (s : Nat) :
    dumpedAt w (pre ++ [v]) s
      = (dumpedAt w pre s || (isLoadArea w v && ((v.desc w).Seg == s))) := by
  simp [dumpedAt, Bool.or_assoc]

theorem dumpedAt_nil (w : World) (s : Nat) : dumpedAt w [] s = (w.Segs s).Dumped := by
  simp [dumpedAt]

theorem reached_nil (w : World) : w.reached [] w.Out = w := by
  simp [World.reached, dumpedAt_nil]

theorem reached_snoc_load (w : World) (pre : List Visit) (v : Visit) (out : Stream)
    (h : isLoadArea w v = true) :
    (w.reached pre out).setDumped (v.desc w).Seg = w.reached (pre ++ [v]) out := by
  simp only [World.reached, World.setDumped, World.mk.injEq, true_and, and_true]
  funext s
  by_cases hs : s = (v.desc w).Seg
  · subst hs
    simp [dumpedAt_snoc, h]
  · have hs2 : ¬ (v.desc w).Seg = s := fun e => hs e.symm
    simp [dumpedAt_snoc, hs, hs2]

theorem reached_snoc_other (w : World) (pre : List Visit) (v : Visit) (out : Stream)
    (h : isLoadArea w v = false) :
    w.reached pre out = w.reached (pre ++ [v]) out := by
  simp only [World.reached, World.mk.injEq, true_and, and_true]
  funext s
  simp [dumpedAt_snoc, h]

theorem DoWrite_reached (w : World) (pre : List Visit) (v : Visit) (out : Stream) :
    DoWrite (w.reached pre out) v.M (v.desc w) = writeDecision w pre v := by
  simp only [DoWrite, writeDecision, isBss, isLoadArea, World.reached, bne]
  generalize ((v.desc w).Flags &&& SF_BSS == 0) = a
  generalize ((v.desc w).Load == v.M) = b
  generalize dumpedAt w pre (v.desc w).Seg = c
  cases a <;> cases b <;> cases c <;> rfl

/-- A visit at which the write decision does not hold: nothing is written. -/
theorem visit_skip (env : Env) (w : World) (pre : List Visit) (v : Visit) (out : Stream)
    (h : writeDecision w pre v = false) :
    visit env (w.reached pre out) v = Outcome.ok (w.reached (pre ++ [v]) out) := by
  have hd : DoWrite (w.reached pre out) v.M (v.desc w) = false := by
    rw [DoWrite_reached]; exact h
  have hD : (w.reached pre out).Descs v.I = v.desc w := rfl
  simp only [visit, ImgWriteMemBody, hD, hd, Bool.false_eq_true, if_false, Outcome.bind_ok]
  by_cases hl : isLoadArea w v = true
  · have hl2 : ((v.desc w).Load == v.M) = true := hl
    simp only [hl2, if_true]
    rw [reached_snoc_load w pre v out hl]
  · have hl3 : isLoadArea w v = false := by simpa using hl
    have hl2 : ((v.desc w).Load == v.M) = false := hl3
    simp only [hl2, Bool.false_eq_true, if_false]
    rw [← reached_snoc_other w pre v out hl3]

theorem AlignAddr_ne_iff (A L : Nat) (hA : A < 2 ^ ULONG_BITS) (hL : 0 < L)
    (hL2 : L < 2 ^ ULONG_BITS) : A ≠ AlignAddr A L ↔ A % L ≠ 0 := by
  unfold AlignAddr
  have hm : A % L < L := Nat.mod_lt _ hL
  simp only [ULONG_BITS] at *
  by_cases h : A % L = 0
  · simp only [h, if_true, Nat.add_zero, ne_eq, not_true_eq_false, iff_false, not_not]
    exact (Nat.mod_eq_of_lt hA).symm
  · simp only [h, if_false, ne_eq, not_false_eq_true, iff_true]
    generalize A % L = m at *
    omega

/-- The alignment test of `ImgWriteMemWrite` on representable values: it fails
exactly when the address is not a multiple of the alignment. -/
theorem check_eq (S : SegDesc) (h : S.Representable) :
    (S.Addr != AlignAddr S.Addr S.LoadAlignment) = !decide S.Aligned := by
  have := AlignAddr_ne_iff S.Addr S.LoadAlignment h.1 h.2.1 h.2.2
  unfold SegDesc.Aligned
  by_cases hm : S.Addr % S.LoadAlignment = 0
  · have h2 : S.Addr = AlignAddr S.Addr S.LoadAlignment := by
      by_contra hc
      exact (this.1 hc) hm
    simp [hm, ← h2]
  · have h2 : S.Addr ≠ AlignAddr S.Addr S.LoadAlignment := this.2 hm
    simp [hm, h2]

/-- A visit at which the write decision holds and the alignment test passes:
the triple is written and the segment is marked. -/
theorem visit_write (env : Env) (w : World) (pre : List Visit) (v : Visit) (out : Stream)
    (bytes : List Nat) (h : writeDecision w pre v = true)
    (hc : ((v.desc w).Addr != AlignAddr (v.desc w).Addr (v.desc w).LoadAlignment) = false)
    (hb : env.Content (v.desc w).Seg = some bytes) :
    visit env (w.reached pre out) v
      = Outcome.ok (w.reached (pre ++ [v])
          { IsOpen := out.IsOpen
            Data := out.Data ++ (header w (v.desc w).Seg ++ bytes)
            SegWrites := out.SegWrites ++ [(v.desc w).Seg] }) := by
  have hd : DoWrite (w.reached pre out) v.M (v.desc w) = true := by
    rw [DoWrite_reached]; exact h
  have hD : (w.reached pre out).Descs v.I = v.desc w := rfl
  have hl : isLoadArea w v = true := by
    simp only [writeDecision, Bool.and_eq_true] at h
    exact h.1.2
  have hl2 : ((v.desc w).Load == v.M) = true := hl
  simp only [visit, ImgWriteMemBody, hD, hd, if_true, ImgWriteMemWrite, hc, Bool.false_eq_true,
    if_false, SegWrite, hb, Outcome.bind_ok, hl2]
  rw [← reached_snoc_load w pre v _ hl]
  simp [World.reached, Write16, header, List.append_assoc]

/-- A visit at which the write decision holds and the alignment test fails:
the run ends there, in the state before the visit. -/
theorem visit_misaligned (env : Env) (w : World) (pre : List Visit) (v : Visit) (out : Stream)
    (h : writeDecision w pre v = true)
    (hc : ((v.desc w).Addr != AlignAddr (v.desc w).Addr (v.desc w).LoadAlignment) = true) :
    visit env (w.reached pre out) v
      = Outcome.mk
          (some (Failure.InvalidAlignment (v.desc w).Name (v.desc w).Addr
            (v.desc w).LoadAlignment))
          (w.reached pre out) := by
  have hd : DoWrite (w.reached pre out) v.M (v.desc w) = true := by
    rw [DoWrite_reached]; exact h
  have hD : (w.reached pre out).Descs v.I = v.desc w := rfl
  simp only [visit, ImgWriteMemBody, hD, hd, if_true, ImgWriteMemWrite, hc, Internal]
  rfl

/-! ## The loops -/

theorem image_cons (env : Env) (w : World) (pre : List Visit) (v : Visit) (vs : List Visit) :
    image env w pre (v :: vs)
      = (if writeDecision w pre v then triple env w (v.desc w).Seg else [])
          ++ image env w (pre ++ [v]) vs := by
  simp [image, withHistory]

theorem written_cons (w : World) (pre : List Visit) (v : Visit) (vs : List Visit) :
    written w pre (v :: vs)
      = (if writeDecision w pre v then [(v.desc w).Seg] else [])
          ++ written w (pre ++ [v]) vs := by
  simp [written, withHistory]

/-- A run of visits none of which fails, in closed form. -/
theorem loop_ok (env : Env) (w : World) (vs pre : List Visit) (out : Stream)
    (h : ∀ p ∈ withHistory pre vs, Passes env w p) :
    forEach (visit env) vs (w.reached pre out)
      = Outcome.ok (w.reached (pre ++ vs) (outAfter env w pre vs out)) := by
  induction vs generalizing pre out with
  | nil => simp [forEach, outAfter, image, written, withHistory]
  | cons v vs ih =>
    have hv : Passes env w (pre, v) := h _ (by simp [withHistory])
    have hrest : ∀ p ∈ withHistory (pre ++ [v]) vs, Passes env w p := fun p hp =>
      h p (by simp [withHistory, hp])
    simp only [forEach]
    by_cases hd : writeDecision w pre v = true
    · obtain ⟨hrep, hal, hsome⟩ := hv hd
      obtain ⟨bytes, hb⟩ := Option.isSome_iff_exists.1 hsome
      have hc : ((v.desc w).Addr != AlignAddr (v.desc w).Addr (v.desc w).LoadAlignment)
          = false := by
        rw [check_eq _ hrep]; simp [hal]
      rw [visit_write env w pre v out bytes hd hc hb, Outcome.bind_ok, ih _ _ hrest]
      simp [outAfter, image_cons, written_cons, hd, triple, hb, List.append_assoc]
    · have hd2 : writeDecision w pre v = false := by simpa using hd
      rw [visit_skip env w pre v out hd2, Outcome.bind_ok, ih _ _ hrest]
      simp [outAfter, image_cons, written_cons, hd2, List.append_assoc]

theorem Frame.refl (w : World) : w.Frame w :=
  ⟨rfl, rfl, rfl, rfl, fun _ => ⟨rfl, rfl, id⟩⟩

theorem Frame.trans {w w1 w2 : World} (h1 : w.Frame w1) (h2 : w1.Frame w2) : w.Frame w2 := by
  obtain ⟨a1, b1, c1, d1, e1⟩ := h1
  obtain ⟨a2, b2, c2, d2, e2⟩ := h2
  refine ⟨a2.trans a1, b2.trans b1, c2.trans c1, d2.trans d1, fun s => ?_⟩
  exact ⟨(e2 s).1.trans (e1 s).1, (e2 s).2.1.trans (e1 s).2.1,
    fun h => (e2 s).2.2 ((e1 s).2.2 h)⟩

theorem setDumped_frame (w : World) (Seg : Nat) : w.Frame (w.setDumped Seg) := by
  refine ⟨rfl, rfl, rfl, rfl, fun s => ?_⟩
  by_cases hs : s = Seg <;> simp [World.setDumped, hs]

theorem ImgWriteMemWrite_frame (env : Env) (w : World) (S : SegDesc) :
    w.Frame (ImgWriteMemWrite env w S).W := by
  unfold ImgWriteMemWrite
  split
  · exact Frame.refl w
  · simp only
    split
    · exact ⟨rfl, rfl, rfl, rfl, fun _ => ⟨rfl, rfl, id⟩⟩
    · exact ⟨rfl, rfl, rfl, rfl, fun _ => ⟨rfl, rfl, id⟩⟩

/-- One visit changes nothing but the output stream and Dumped flags, and it
never clears a Dumped flag. -/
theorem visit_frame (env : Env) (w : World) (v : Visit) : w.Frame (visit env w v).W := by
  unfold visit ImgWriteMemBody
  simp only
  split
  · have h1 := ImgWriteMemWrite_frame env w (w.Descs v.I)
    generalize ImgWriteMemWrite env w (w.Descs v.I) = o at h1
    obtain ⟨e, w1⟩ := o
    cases e
    · simp only [Outcome.bind]
      split
      · exact Frame.trans h1 (setDumped_frame _ _)
      · exact h1
    · exact h1
  · simp only [Outcome.bind_ok]
    split
    · exact setDumped_frame _ _
    · exact Frame.refl w

theorem loop_frame (env : Env) (vs : List Visit) (w : World) :
    w.Frame (forEach (visit env) vs w).W :=
  forEach_preserves (visit env) (fun w1 => w.Frame w1)
    (fun w1 x h => Frame.trans h (visit_frame env w1 x)) vs w (Frame.refl w)

theorem areaVisits_congr (w w1 : World) (h : w1.Areas = w.Areas) :
    areaVisits w1 = areaVisits w := by
  funext M
  simp [areaVisits, h]

/-- The two nested loops of `ImgWriteTarget` and `ImgWriteMem` make the visits
of `visits` in order. -/
theorem areas_loop_eq (env : Env) (Ms : List Nat) (w : World) :
    forEach (ImgWriteMem env) Ms w
      = forEach (visit env) (Ms.flatMap (areaVisits w)) w := by
  induction Ms generalizing w with
  | nil => rfl
  | cons M Ms ih =>
    simp only [forEach, List.flatMap_cons, forEach_append, ImgWriteMem_eq]
    apply Outcome.bind_congr
    rw [ih, areaVisits_congr _ _ (loop_frame env _ w).2.1]

/-! ## The whole run -/

theorem foldl_ImgUnresolved (l : List Nat) (D : ImgDesc) (n : Nat) :
    l.foldl (fun d Name => (ImgUnresolved Name d).2) { D with Undef := n % 2 ^ UINT_BITS }
      = { D with Undef := (n + l.length) % 2 ^ UINT_BITS } := by
  induction l generalizing n with
  | nil => rfl
  | cons x l ih =>
    have h1 : (ImgUnresolved x { D with Undef := n % 2 ^ UINT_BITS }).2
        = { D with Undef := (n + 1) % 2 ^ UINT_BITS } := by
      simp [ImgUnresolved]
    simp only [List.foldl_cons, h1, ih, List.length_cons]
    congr 2
    omega

/-- The counter after `CheckUnresolvedImports`, started from zero: the number
of callback invocations, in `unsigned` arithmetic. -/
theorem CheckUnresolvedImports_count (env : Env) (f n : Option Nat) :
    CheckUnresolvedImports env ImgUnresolved { Undef := 0, F := f, Filename := n }
      = { Undef := env.Unresolved.length % 2 ^ UINT_BITS, F := f, Filename := n } := by
  have h := foldl_ImgUnresolved env.Unresolved { Undef := 0, F := f, Filename := n } 0
  simpa [CheckUnresolvedImports] using h

/-- The run when the counter is not zero after the enumeration: it ends at
the gate. -/
theorem target_gate (env : Env) (F : Nat) (w : World)
    (h : 0 < env.Unresolved.length % 2 ^ UINT_BITS) :
    ImgWriteTarget env F w
      = Outcome.mk (some (Failure.UnresolvedExternals (env.Unresolved.length % 2 ^ UINT_BITS)))
          { w with D := { Undef := env.Unresolved.length % 2 ^ UINT_BITS, F := w.D.F,
                          Filename := some (w.Files F).Name } } := by
  unfold ImgWriteTarget
  simp only [CheckUnresolvedImports_count, gt_iff_lt, h, if_true, Error]

/-- The run when the counter is zero and `fopen` fails. -/
theorem target_cannot_open (env : Env) (F : Nat) (w : World)
    (h : env.Unresolved.length % 2 ^ UINT_BITS = 0) (ho : env.Open = none) :
    ImgWriteTarget env F w
      = Outcome.mk (some (Failure.CannotOpen (some (w.Files F).Name)))
          { w with D := { Undef := 0, F := none, Filename := some (w.Files F).Name } } := by
  unfold ImgWriteTarget
  simp only [CheckUnresolvedImports_count, gt_iff_lt, h, Nat.lt_irrefl, if_false, fopen, ho,
    if_true, Error]

/-- The run when the counter is zero and `fopen` succeeds: the visits, then
the closing statements. -/
theorem target_opened (env : Env) (F : Nat) (w : World) (hd : Nat)
    (h : env.Unresolved.length % 2 ^ UINT_BITS = 0) (ho : env.Open = some hd) :
    ImgWriteTarget env F w
      = (forEach (visit env) (visits w F) (w.opened F hd)).bind (closeAndReset env) := by
  unfold ImgWriteTarget
  simp only [CheckUnresolvedImports_count, gt_iff_lt, h, Nat.lt_irrefl, if_false, fopen, ho,
    reduceCtorEq, areas_loop_eq]
  rfl

theorem opened_reached_nil (w : World) (F hd : Nat) :
    (w.opened F hd).reached [] { IsOpen := true, Data := [], SegWrites := [] }
      = w.opened F hd :=
  reached_nil (w.opened F hd)

/-- The loop of a run that opened its stream, over visits none of which
fails, in closed form. -/
theorem opened_loop_ok (env : Env) (w : World) (F hd : Nat) (vs : List Visit)
    (hp : ∀ p ∈ withHistory [] vs, Passes env w p) :
    forEach (visit env) vs (w.opened F hd) = Outcome.ok (w.visited env F hd vs) := by
  have h := loop_ok env (w.opened F hd) vs [] { IsOpen := true, Data := [], SegWrites := [] } hp
  rw [opened_reached_nil] at h
  rw [h]
  simp only [World.visited, outAfter, List.nil_append]
  rfl

/-- The run when nothing stands in its way, up to the closing statements. -/
theorem target_visited (env : Env) (F : Nat) (w : World) (hd : Nat)
    (hu : env.Unresolved.length % 2 ^ UINT_BITS = 0) (ho : env.Open = some hd)
    (hp : ∀ p ∈ withHistory [] (visits w F), Passes env w p) :
    ImgWriteTarget env F w = closeAndReset env (w.visited env F hd (visits w F)) := by
  rw [target_opened env F w hd hu ho, opened_loop_ok env w F hd _ hp, Outcome.bind_ok]

theorem closeAndReset_Out (env : Env) (w5 : World) :
    (closeAndReset env w5).W.Out = { w5.Out with IsOpen := false } := by
  unfold closeAndReset
  simp only [fclose]
  split <;> rfl

theorem closeAndReset_Segs (env : Env) (w5 : World) :
    (closeAndReset env w5).W.Segs = w5.Segs := by
  unfold closeAndReset
  simp only [fclose]
  split <;> rfl

theorem closeAndReset_Err (env : Env) (w5 : World) (h : env.CloseOk = true) :
    (closeAndReset env w5).Err = none := by
  simp [closeAndReset, fclose, h, Outcome.ok]

/-- The hypotheses of the claims, in the form the closed form of the run
takes them. -/
theorem passes_of (env : Env) (w : World) (vs : List Visit)
    (hal : ∀ p ∈ withHistory [] vs, writeDecision w p.1 p.2 = true →
      (p.2.desc w).Representable ∧ (p.2.desc w).Aligned)
    (henc : ∀ p ∈ withHistory [] vs, writeDecision w p.1 p.2 = true →
      (env.Content (p.2.desc w).Seg).isSome = true) :
    ∀ p ∈ withHistory [] vs, Passes env w p :=
  fun p hp hd => ⟨(hal p hp hd).1, (hal p hp hd).2, henc p hp hd⟩

theorem length_mod_of_nil (env : Env) (hu : env.Unresolved = []) :
    env.Unresolved.length % 2 ^ UINT_BITS = 0 := by
  simp [hu]

/-- A visit at which the write decision holds, the alignment test passes and
`SegWrite` fails: the run ends after the header. -/
theorem visit_encoding (env : Env) (w : World) (pre : List Visit) (v : Visit) (out : Stream)
    (h : writeDecision w pre v = true)
    (hc : ((v.desc w).Addr != AlignAddr (v.desc w).Addr (v.desc w).LoadAlignment) = false)
    (hb : env.Content (v.desc w).Seg = none) :
    visit env (w.reached pre out) v
      = Outcome.mk (some (Failure.EncodingError (v.desc w).Seg))
          (w.reached pre { out with Data := out.Data ++ header w (v.desc w).Seg }) := by
  have hd : DoWrite (w.reached pre out) v.M (v.desc w) = true := by
    rw [DoWrite_reached]; exact h
  have hD : (w.reached pre out).Descs v.I = v.desc w := rfl
  simp only [visit, ImgWriteMemBody, hD, hd, if_true, ImgWriteMemWrite, hc, Bool.false_eq_true,
    if_false, SegWrite, hb, Error]
  simp [Outcome.bind, World.reached, Write16, header, List.append_assoc]

/-- The four ways one visit can go, from any state. -/
theorem visit_cases (env : Env) (w : World) (v : Visit) :
    (writeDecision w [] v = false ∧ visit env w v = Outcome.ok (w.reached [v] w.Out)) ∨
    (writeDecision w [] v = true ∧ ∃ bytes, env.Content (v.desc w).Seg = some bytes ∧
      visit env w v = Outcome.ok (w.reached [v]
        { IsOpen := w.Out.IsOpen
          Data := w.Out.Data ++ (header w (v.desc w).Seg ++ bytes)
          SegWrites := w.Out.SegWrites ++ [(v.desc w).Seg] })) ∨
    (writeDecision w [] v = true ∧
      ((v.desc w).Addr != AlignAddr (v.desc w).Addr (v.desc w).LoadAlignment) = true ∧
      visit env w v = Outcome.mk
        (some (Failure.InvalidAlignment (v.desc w).Name (v.desc w).Addr (v.desc w).LoadAlignment))
        w) ∨
    (writeDecision w [] v = true ∧ env.Content (v.desc w).Seg = none ∧
      visit env w v = Outcome.mk (some (Failure.EncodingError (v.desc w).Seg))
        { w with Out := { w.Out with Data := w.Out.Data ++ header w (v.desc w).Seg } }) := by
  have hw : w.reached [] w.Out = w := reached_nil w
  by_cases hd : writeDecision w [] v = true
  · by_cases hc : ((v.desc w).Addr != AlignAddr (v.desc w).Addr (v.desc w).LoadAlignment) = true
    · have h := visit_misaligned env w [] v w.Out hd hc
      rw [hw] at h
      exact Or.inr (Or.inr (Or.inl ⟨hd, hc, h⟩))
    · have hc2 : ((v.desc w).Addr != AlignAddr (v.desc w).Addr (v.desc w).LoadAlignment)
          = false := by simpa using hc
      cases hb : env.Content (v.desc w).Seg with
      | none =>
        have h := visit_encoding env w [] v w.Out hd hc2 hb
        rw [hw] at h
        refine Or.inr (Or.inr (Or.inr ⟨hd, rfl, ?_⟩))
        rw [h]
        congr 1
        simp [World.reached, dumpedAt_nil]
      | some bytes =>
        have h := visit_write env w [] v w.Out bytes hd hc2 hb
        rw [hw] at h
        exact Or.inr (Or.inl ⟨hd, bytes, rfl, h⟩)
  · have hd2 : writeDecision w [] v = false := by simpa using hd
    have h := visit_skip env w [] v w.Out hd2
    rw [hw] at h
    exact Or.inl ⟨hd2, h⟩

/-- The segments recorded as written are marked Dumped and recorded once. -/
theorem visit_record (env : Env) (w : World) (v : Visit)
    (h : w.Out.SegWrites.Nodup ∧ ∀ s ∈ w.Out.SegWrites, (w.Segs s).Dumped = true) :
    (visit env w v).W.Out.SegWrites.Nodup ∧
      ∀ s ∈ (visit env w v).W.Out.SegWrites, ((visit env w v).W.Segs s).Dumped = true := by
  obtain ⟨hn, hall⟩ := h
  rcases visit_cases env w v with ⟨_, h⟩ | ⟨hd, bytes, _, h⟩ | ⟨_, _, h⟩ | ⟨_, _, h⟩
  · rw [h]
    refine ⟨hn, fun s hs => ?_⟩
    simp [Outcome.ok, World.reached, dumpedAt, hall s hs]
  · rw [h]
    simp only [writeDecision, Bool.and_eq_true, Bool.not_eq_true', dumpedAt_nil] at hd
    obtain ⟨⟨_, hl⟩, hnd⟩ := hd
    have hnot : (v.desc w).Seg ∉ w.Out.SegWrites := fun hm => by
      have := hall _ hm
      rw [hnd] at this
      exact Bool.false_ne_true this
    refine ⟨?_, fun s hs => ?_⟩
    · simp only [Outcome.ok, World.reached]
      exact List.Nodup.append hn (List.nodup_singleton _) (by simpa using hnot)
    · simp only [Outcome.ok, World.reached, List.mem_append, List.mem_singleton] at hs ⊢
      rcases hs with hs | hs
      · simp [dumpedAt, hall s hs]
      · subst hs
        simp [dumpedAt, hl]
  · rw [h]
    exact ⟨hn, hall⟩
  · rw [h]
    exact ⟨hn, hall⟩

theorem bind_closeAndReset_SegWrites (env : Env) (o : Outcome) :
    (o.bind (closeAndReset env)).W.Out.SegWrites = o.W.Out.SegWrites := by
  obtain ⟨e, w1⟩ := o
  cases e
  · simp [Outcome.bind, closeAndReset_Out]
  · rfl

/-- The three ways a run can go at its start. -/
theorem target_cases (env : Env) (F : Nat) (w : World) :
    (ImgWriteTarget env F w).W.Out = w.Out ∨
      ∃ hd, ImgWriteTarget env F w
        = (forEach (visit env) (visits w F) (w.opened F hd)).bind (closeAndReset env) := by
  by_cases hu : env.Unresolved.length % 2 ^ UINT_BITS = 0
  · cases ho : env.Open with
    | none => left; rw [target_cannot_open env F w hu ho]
    | some hd => right; exact ⟨hd, target_opened env F w hd hu ho⟩
  · left
    rw [target_gate env F w (Nat.pos_of_ne_zero hu)]

theorem withHistory_append (h a b : List Visit) :
    withHistory h (a ++ b) = withHistory h a ++ withHistory (h ++ a) b := by
  induction a generalizing h with
  | nil => simp [withHistory]
  | cons x a ih => simp [withHistory, ih, List.append_assoc]

theorem mem_withHistory (p : List Visit × Visit) (h vs : List Visit)
    (hp : p ∈ withHistory h vs) : ∃ a b, vs = a ++ p.2 :: b ∧ p.1 = h ++ a := by
  induction vs generalizing h with
  | nil => simp [withHistory] at hp
  | cons x vs ih =>
    simp only [withHistory, List.mem_cons] at hp
    rcases hp with hp | hp
    · subst hp
      exact ⟨[], vs, rfl, by simp⟩
    · obtain ⟨a, b, h1, h2⟩ := ih _ hp
      refine ⟨x :: a, b, by simp [h1], ?_⟩
      rw [h2]
      simp

theorem written_append (w : World) (h a b : List Visit) :
    written w h (a ++ b) = written w h a ++ written w (h ++ a) b := by
  simp [written, withHistory_append]

theorem mem_written (w : World) (h vs : List Visit) (s : Nat) (hs : s ∈ written w h vs) :
    ∃ p ∈ withHistory h vs, writeDecision w p.1 p.2 = true ∧ (p.2.desc w).Seg = s := by
  simp only [written, List.mem_flatMap] at hs
  obtain ⟨p, hp, hs⟩ := hs
  by_cases hd : writeDecision w p.1 p.2 = true
  · simp only [hd, if_true, List.mem_singleton] at hs
    exact ⟨p, hp, hd, hs.symm⟩
  · simp [hd] at hs

/-- The record of a run that opened its stream and in which no visit failed. -/
theorem opened_loop_SegWrites (env : Env) (w : World) (F hd : Nat) (vs : List Visit)
    (hp : ∀ p ∈ withHistory [] vs, Passes env w p) :
    (forEach (visit env) vs (w.opened F hd)).W.Out.SegWrites = written w [] vs := by
  rw [opened_loop_ok env w F hd vs hp]
  rfl

/-- A segment met in its load area for the first time, not BSS and not
dumped before the run: the write decision holds there, it holds at no visit
of that segment afterwards, and it held at no visit before. -/
theorem first_load_visit (w : World) (pre post : List Visit) (v : Visit)
    (hb : isBss (v.desc w) = false) (hl : isLoadArea w v = true)
    (hd : (w.Segs (v.desc w).Seg).Dumped = false)
    (hfirst : ∀ u ∈ pre, isLoadArea w u = true → (u.desc w).Seg ≠ (v.desc w).Seg) :
    writeDecision w pre v = true ∧ (v.desc w).Seg ∉ written w [] pre ∧
      (v.desc w).Seg ∉ written w (pre ++ [v]) post := by
  refine ⟨?_, ?_, ?_⟩
  · have hany : (pre.any fun u => isLoadArea w u && ((u.desc w).Seg == (v.desc w).Seg))
        = false := by
      rw [List.any_eq_false]
      intro u hu
      by_cases hlu : isLoadArea w u = true
      · simp [hlu, hfirst u hu hlu]
      · simp [hlu]
    simp [writeDecision, hb, hl, dumpedAt, hd, hany]
  · intro hm
    obtain ⟨p, hp, hdec, hs⟩ := mem_written w [] pre _ hm
    obtain ⟨a, b, h1, _⟩ := mem_withHistory p [] pre hp
    have hmem : p.2 ∈ pre := by rw [h1]; simp
    have hlp : isLoadArea w p.2 = true := by
      simp only [writeDecision, Bool.and_eq_true] at hdec
      exact hdec.1.2
    exact hfirst p.2 hmem hlp hs
  · intro hm
    obtain ⟨p, hp, hdec, hs⟩ := mem_written w (pre ++ [v]) post _ hm
    obtain ⟨a, b, _, h2⟩ := mem_withHistory p (pre ++ [v]) post hp
    have hdump : dumpedAt w p.1 (p.2.desc w).Seg = true := by
      rw [h2, hs]
      simp [dumpedAt, hl]
    simp [writeDecision, hdump] at hdec

/-- A visit that returns, from a state of the run: the state after it. -/
theorem visit_returns (env : Env) (w : World) (pre : List Visit) (v : Visit) (out : Stream)
    (h : (visit env (w.reached pre out) v).Err = none) :
    ∃ out1, visit env (w.reached pre out) v = Outcome.ok (w.reached (pre ++ [v]) out1) ∧
      out1.IsOpen = out.IsOpen := by
  by_cases hd : writeDecision w pre v = true
  · by_cases hc : ((v.desc w).Addr != AlignAddr (v.desc w).Addr (v.desc w).LoadAlignment) = true
    · rw [visit_misaligned env w pre v out hd hc] at h
      simp at h
    · have hc2 : ((v.desc w).Addr != AlignAddr (v.desc w).Addr (v.desc w).LoadAlignment)
          = false := by simpa using hc
      cases hb : env.Content (v.desc w).Seg with
      | none =>
        rw [visit_encoding env w pre v out hd hc2 hb] at h
        simp at h
      | some bytes => exact ⟨_, visit_write env w pre v out bytes hd hc2 hb, rfl⟩
  · have hd2 : writeDecision w pre v = false := by simpa using hd
    exact ⟨out, visit_skip env w pre v out hd2, rfl⟩

theorem Outcome.bind_Err_none (o : Outcome) (k : World → Outcome)
    (h : (o.bind k).Err = none) : o.Err = none ∧ (k o.W).Err = none := by
  obtain ⟨e, w⟩ := o
  cases e
  · exact ⟨rfl, h⟩
  · simp [Outcome.bind] at h

theorem Outcome.eq_ok (o : Outcome) (h : o.Err = none) : o = Outcome.ok o.W := by
  obtain ⟨e, w⟩ := o
  simp only at h
  subst h
  rfl

/-- A loop of visits that returns, from a state of the run: the state after
it. -/
theorem loop_returns (env : Env) (w : World) (vs pre : List Visit) (out : Stream)
    (h : (forEach (visit env) vs (w.reached pre out)).Err = none) :
    ∃ out1, forEach (visit env) vs (w.reached pre out)
        = Outcome.ok (w.reached (pre ++ vs) out1) ∧ out1.IsOpen = out.IsOpen := by
  induction vs generalizing pre out with
  | nil => exact ⟨out, by simp [forEach], rfl⟩
  | cons v vs ih =>
    simp only [forEach] at h ⊢
    obtain ⟨h1, _⟩ := Outcome.bind_Err_none _ _ h
    obtain ⟨out1, hv, ho1⟩ := visit_returns env w pre v out h1
    rw [hv, Outcome.bind_ok] at h ⊢
    obtain ⟨out2, hl, ho2⟩ := ih _ _ h
    refine ⟨out2, ?_, ho2.trans ho1⟩
    rw [hl]
    simp

theorem closeAndReset_returns (env : Env) (w5 : World) (h : (closeAndReset env w5).Err = none) :
    closeAndReset env w5
      = Outcome.ok { w5 with D := { w5.D with F := none, Filename := none }
                             Out := { w5.Out with IsOpen := false } } := by
  cases hc : env.CloseOk with
  | true => simp [closeAndReset, fclose, hc]
  | false => simp [closeAndReset, fclose, hc, Error] at h

/-- A run that returns: its final state in closed form. -/
theorem target_returns (env : Env) (F : Nat) (w : World)
    (h : (ImgWriteTarget env F w).Err = none) :
    ∃ out1, (ImgWriteTarget env F w).W
        = { w with
            Segs := fun s => { w.Segs s with Dumped := dumpedAt w (visits w F) s }
            D := NewImgDesc
            Out := out1 } ∧ out1.IsOpen = false := by
  by_cases hu : env.Unresolved.length % 2 ^ UINT_BITS = 0
  · cases ho : env.Open with
    | none =>
      rw [target_cannot_open env F w hu ho] at h
      simp at h
    | some hd =>
      rw [target_opened env F w hd hu ho] at h ⊢
      obtain ⟨h1, h2⟩ := Outcome.bind_Err_none _ _ h
      rw [← opened_reached_nil w F hd] at h1
      obtain ⟨out1, hl, _⟩ := loop_returns env (w.opened F hd) (visits w F) [] _ h1
      rw [opened_reached_nil] at hl
      rw [hl, Outcome.bind_ok] at h ⊢
      rw [closeAndReset_returns env _ h]
      exact ⟨{ out1 with IsOpen := false }, rfl, rfl⟩
  · rw [target_gate env F w (Nat.pos_of_ne_zero hu)] at h
    simp at h

/-- The failures a visit can end with. -/
theorem visit_Err_kind (env : Env) (w : World) (v : Visit) (e : Failure)
    (h : (visit env w v).Err = some e) :
    (∃ n a l, e = Failure.InvalidAlignment n a l) ∨ (∃ s, e = Failure.EncodingError s) := by
  rcases visit_cases env w v with ⟨_, h1⟩ | ⟨_, _, _, h1⟩ | ⟨_, _, h1⟩ | ⟨_, _, h1⟩
  · rw [h1] at h; simp [Outcome.ok] at h
  · rw [h1] at h; simp [Outcome.ok] at h
  · rw [h1] at h
    simp only [Option.some.injEq] at h
    exact Or.inl ⟨_, _, _, h.symm⟩
  · rw [h1] at h
    simp only [Option.some.injEq] at h
    exact Or.inr ⟨_, h.symm⟩

theorem Outcome.bind_Err_some (o : Outcome) (k : World → Outcome) (e : Failure)
    (h : (o.bind k).Err = some e) :
    (o.Err = some e ∧ o.bind k = o) ∨ (o.Err = none ∧ (k o.W).Err = some e) := by
  obtain ⟨e1, w⟩ := o
  cases e1
  · exact Or.inr ⟨rfl, h⟩
  · exact Or.inl ⟨h, rfl⟩

/-- A failure of a loop is a failure of one execution of its body. -/
theorem forEach_Err {α : Type} (body : World → α → Outcome) (P : Failure → Prop)
    (hb : ∀ w x e, (body w x).Err = some e → P e) (xs : List α) (w : World) (e : Failure)
    (h : (forEach body xs w).Err = some e) : P e := by
  induction xs generalizing w with
  | nil => simp [forEach, Outcome.ok] at h
  | cons x xs ih =>
    simp only [forEach] at h
    rcases Outcome.bind_Err_some _ _ _ h with ⟨h1, _⟩ | ⟨_, h1⟩
    · exact hb w x e h1
    · exact ih _ h1

theorem closeAndReset_Err_kind (env : Env) (w5 : World) (e : Failure)
    (h : (closeAndReset env w5).Err = some e) : e = Failure.CannotWrite w5.D.Filename := by
  cases hc : env.CloseOk with
  | true => simp [closeAndReset, fclose, hc, Outcome.ok] at h
  | false =>
    simp only [closeAndReset, fclose, hc, Error] at h
    simpa using h.symm

/-- One visit leaves the stream as open or closed as it found it. -/
theorem visit_IsOpen (env : Env) (w : World) (v : Visit) :
    (visit env w v).W.Out.IsOpen = w.Out.IsOpen := by
  rcases visit_cases env w v with ⟨_, h1⟩ | ⟨_, _, _, h1⟩ | ⟨_, _, h1⟩ | ⟨_, _, h1⟩ <;>
    rw [h1] <;> rfl

/-- The failures of a run that passed the gate and opened its stream, and the
state of the stream they leave. -/
theorem target_opened_Err (env : Env) (F : Nat) (w : World) (hd : Nat) (e : Failure)
    (hu : env.Unresolved.length % 2 ^ UINT_BITS = 0) (ho : env.Open = some hd)
    (h : (ImgWriteTarget env F w).Err = some e) :
    (((∃ n a l, e = Failure.InvalidAlignment n a l) ∨ (∃ s, e = Failure.EncodingError s)) ∧
        (ImgWriteTarget env F w).W.Out.IsOpen = true) ∨
      ((∃ n, e = Failure.CannotWrite n) ∧ (ImgWriteTarget env F w).W.Out.IsOpen = false) := by
  rw [target_opened env F w hd hu ho] at h ⊢
  rcases Outcome.bind_Err_some _ _ _ h with ⟨h1, h2⟩ | ⟨hnone, h1⟩
  · left
    refine ⟨forEach_Err (visit env) _ (fun w1 x e1 he => visit_Err_kind env w1 x e1 he) _ _ _ h1,
      ?_⟩
    rw [h2]
    exact forEach_preserves (visit env) (fun w1 => w1.Out.IsOpen = true)
      (fun w1 x hw1 => (visit_IsOpen env w1 x).trans hw1) _ _ rfl
  · right
    have hk := closeAndReset_Err_kind env _ e h1
    refine ⟨⟨_, hk⟩, ?_⟩
    rw [Outcome.eq_ok _ hnone, Outcome.bind_ok, closeAndReset_Out]

theorem mem_visits (w : World) (F : Nat) (v : Visit) :
    v ∈ visits w F ↔ v.M ∈ (w.Files F).MemoryAreas ∧ v.I ∈ (w.Areas v.M).SegList := by
  obtain ⟨M, I⟩ := v
  simp only [visits, areaVisits, List.mem_flatMap, List.mem_map, Visit.mk.injEq]
  constructor
  · rintro ⟨M1, hM, I1, hI, rfl, rfl⟩
    exact ⟨hM, hI⟩
  · rintro ⟨hM, hI⟩
    exact ⟨M, hM, I, hI, rfl, rfl⟩

theorem mem_areaVisits (w : World) (M I : Nat) (h : I ∈ (w.Areas M).SegList) :
    (⟨M, I⟩ : Visit) ∈ areaVisits w M := by
  simp only [areaVisits, List.mem_map, Visit.mk.injEq, true_and]
  exact ⟨I, h, rfl⟩

/-- A segment met in its load area by one of the visits counts as dumped. -/
theorem dumpedAt_of_mem (w : World) (vs : List Visit) (v : Visit) (hv : v ∈ vs)
    (hl : isLoadArea w v = true) : dumpedAt w vs (v.desc w).Seg = true := by
  simp only [dumpedAt, Bool.or_eq_true, List.any_eq_true, Bool.and_eq_true, beq_iff_eq]
  exact Or.inr ⟨v, hv, hl, rfl⟩

/-- The state after `ImgWriteMem` when it returns. -/
theorem ImgWriteMem_returns (env : Env) (w : World) (M : Nat)
    (h : (ImgWriteMem env w M).Err = none) :
    ∃ out1, ImgWriteMem env w M = Outcome.ok (w.reached (areaVisits w M) out1) := by
  rw [ImgWriteMem_eq] at h ⊢
  rw [← reached_nil w] at h
  obtain ⟨out1, hl, _⟩ := loop_returns env w (areaVisits w M) [] w.Out h
  rw [reached_nil] at hl
  exact ⟨out1, by simpa using hl⟩

theorem outAfter_nil (env : Env) (w : World) (pre : List Visit) (out : Stream) :
    outAfter env w pre [] out = out := by
  simp [outAfter, image, written, withHistory]

theorem outAfter_cons (env : Env) (w : World) (pre : List Visit) (v : Visit)
    (vs : List Visit) (out : Stream) :
    outAfter env w pre (v :: vs) out
      = outAfter env w (pre ++ [v]) vs (outAfter env w pre [v] out) := by
  simp [outAfter, image, written, withHistory, List.append_assoc]

/-- A visit that returns, from a state of the run: the state and the stream
after it. -/
theorem visit_returns_out (env : Env) (w : World) (pre : List Visit) (v : Visit) (out : Stream)
    (h : (visit env (w.reached pre out) v).Err = none) :
    visit env (w.reached pre out) v
      = Outcome.ok (w.reached (pre ++ [v]) (outAfter env w pre [v] out)) := by
  by_cases hd : writeDecision w pre v = true
  · by_cases hc : ((v.desc w).Addr != AlignAddr (v.desc w).Addr (v.desc w).LoadAlignment) = true
    · rw [visit_misaligned env w pre v out hd hc] at h
      simp at h
    · have hc2 : ((v.desc w).Addr != AlignAddr (v.desc w).Addr (v.desc w).LoadAlignment)
          = false := by simpa using hc
      cases hb : env.Content (v.desc w).Seg with
      | none =>
        rw [visit_encoding env w pre v out hd hc2 hb] at h
        simp at h
      | some bytes =>
        rw [visit_write env w pre v out bytes hd hc2 hb]
        simp [outAfter, image, written, withHistory, hd, triple, hb]
  · have hd2 : writeDecision w pre v = false := by simpa using hd
    rw [visit_skip env w pre v out hd2]
    simp [outAfter, image, written, withHistory, hd2]

/-- A visit that ends with the misaligned-segment failure, from a state of
the run: the write decision held, the alignment test failed, and the state is
the one before the visit. -/
theorem visit_InvalidAlignment (env : Env) (w : World) (pre : List Visit) (v : Visit)
    (out : Stream) (n a l : Nat)
    (h : (visit env (w.reached pre out) v).Err = some (Failure.InvalidAlignment n a l)) :
    writeDecision w pre v = true ∧
      ((v.desc w).Addr != AlignAddr (v.desc w).Addr (v.desc w).LoadAlignment) = true ∧
      n = (v.desc w).Name ∧ a = (v.desc w).Addr ∧ l = (v.desc w).LoadAlignment ∧
      (visit env (w.reached pre out) v).W = w.reached pre out := by
  by_cases hd : writeDecision w pre v = true
  · by_cases hc : ((v.desc w).Addr != AlignAddr (v.desc w).Addr (v.desc w).LoadAlignment) = true
    · rw [visit_misaligned env w pre v out hd hc] at h ⊢
      simp only [Option.some.injEq, Failure.InvalidAlignment.injEq] at h
      exact ⟨hd, hc, h.1.symm, h.2.1.symm, h.2.2.symm, rfl⟩
    · have hc2 : ((v.desc w).Addr != AlignAddr (v.desc w).Addr (v.desc w).LoadAlignment)
          = false := by simpa using hc
      cases hb : env.Content (v.desc w).Seg with
      | none =>
        rw [visit_encoding env w pre v out hd hc2 hb] at h
        simp at h
      | some bytes =>
        rw [visit_write env w pre v out bytes hd hc2 hb] at h
        simp [Outcome.ok] at h
  · have hd2 : writeDecision w pre v = false := by simpa using hd
    rw [visit_skip env w pre v out hd2] at h
    simp [Outcome.ok] at h

/-- A loop of visits that does not return: the visits before the one that
ended the run returned, and the outcome is that of the visit that ended it. -/
theorem loop_fails (env : Env) (w : World) (vs pre : List Visit) (out : Stream) (e : Failure)
    (h : (forEach (visit env) vs (w.reached pre out)).Err = some e) :
    ∃ a v b, vs = a ++ v :: b ∧
      forEach (visit env) a (w.reached pre out)
        = Outcome.ok (w.reached (pre ++ a) (outAfter env w pre a out)) ∧
      forEach (visit env) vs (w.reached pre out)
        = visit env (w.reached (pre ++ a) (outAfter env w pre a out)) v ∧
      (visit env (w.reached (pre ++ a) (outAfter env w pre a out)) v).Err = some e := by
  induction vs generalizing pre out with
  | nil => simp [forEach, Outcome.ok] at h
  | cons x vs ih =>
    simp only [forEach] at h
    rcases Outcome.bind_Err_some _ _ _ h with ⟨h1, h2⟩ | ⟨h1, h2⟩
    · refine ⟨[], x, vs, rfl, ?_, ?_, ?_⟩
      · simp [forEach, outAfter_nil]
      · simp only [forEach, List.append_nil, outAfter_nil]
        exact h2
      · simpa [outAfter_nil] using h1
    · have hv := visit_returns_out env w pre x out h1
      rw [hv] at h2
      simp only [Outcome.ok] at h2
      obtain ⟨a, v, b, hvs, hok, hrun, herr⟩ := ih _ _ h2
      refine ⟨x :: a, v, b, by simp [hvs], ?_, ?_, ?_⟩
      · rw [outAfter_cons env w pre x a out]
        simp only [forEach, hv, Outcome.bind_ok, hok, List.append_assoc, List.singleton_append]
      · rw [outAfter_cons env w pre x a out]
        simp only [forEach, hv, Outcome.bind_ok, hrun, List.append_assoc, List.singleton_append]
      · rw [outAfter_cons env w pre x a out]
        simpa only [List.append_assoc, List.singleton_append] using herr

/-! ## The claims -/

/-- C1: when nothing is unresolved, the stream opens, every visit that passes
the write decision is aligned (address and alignment being `unsigned long`
values, the alignment at least 1) and `SegWrite` yields the content of the
segments written, the bytes emitted by `ImgWriteTarget` are the concatenation,
in memory-area order and then segment order, of one triple (address low byte
first, size low byte first, content bytes) per visit at which the write
decision holds, and of nothing for the other visits. -/
theorem ImgWriteTarget_emits_triples (env : Env) (F : Nat) (w : World)
    (hu : env.Unresolved = []) (ho : env.Open.isSome = true)
    (hal : ∀ p ∈ withHistory [] (visits w F), writeDecision w p.1 p.2 = true →
      (p.2.desc w).Representable ∧ (p.2.desc w).Aligned)
    (henc : ∀ p ∈ withHistory [] (visits w F), writeDecision w p.1 p.2 = true →
      (env.Content (p.2.desc w).Seg).isSome = true) :
    (ImgWriteTarget env F w).W.Out.Data
      = (withHistory [] (visits w F)).flatMap fun p =>
          if writeDecision w p.1 p.2 then
            [(w.Segs (p.2.desc w).Seg).PC % 256, (w.Segs (p.2.desc w).Seg).PC / 256 % 256,
             (w.Segs (p.2.desc w).Seg).Size % 256, (w.Segs (p.2.desc w).Seg).Size / 256 % 256]
              ++ (env.Content (p.2.desc w).Seg).getD []
          else [] := by
  obtain ⟨hd, ho⟩ := Option.isSome_iff_exists.1 ho
  rw [target_visited env F w hd (length_mod_of_nil env hu) ho (passes_of env w _ hal henc),
    closeAndReset_Out]
  rfl

/-- Witness of C1: scenario A (one area, one segment at 0x2000 of size 3 with
content 01 02 03) yields `00 20 03 00 01 02 03`. -/
theorem ImgWriteTarget_emits_triples_witness :
    envOk.Unresolved = [] ∧ envOk.Open.isSome = true ∧
      (ImgWriteTarget envOk 0 worldA).W.Out.Data = [0x00, 0x20, 0x03, 0x00, 0x01, 0x02, 0x03] :=
  ⟨rfl, rfl,
    (ImgWriteTarget_emits_triples envOk 0 worldA rfl rfl (by decide) (by decide)).trans
      (by decide)⟩

/-- C2: no segment is written twice during one run of `ImgWriteTarget`: from
any state (any Dumped flags, the call record of the stream empty before the
run) and whatever the collaborators answer, the record of `SegWrite` calls of
the run holds no segment twice.  A segment that is not BSS and not dumped
before the run, met in its load area for the first time at the visit `v` of
a run in which no visit fails, is not written before `v`, is written at `v`,
and is in the record of the whole run exactly once, however often it is
visited afterwards.  In scenario C the visit of Area1 writes C and the visit
of Area2 writes nothing. -/
theorem no_segment_written_twice (env : Env) (F : Nat) (w : World)
    (h0 : w.Out.SegWrites = []) :
    (ImgWriteTarget env F w).W.Out.SegWrites.Nodup ∧
    (∀ hd pre v post, env.Unresolved = [] → env.Open = some hd →
      visits w F = pre ++ v :: post →
      (∀ p ∈ withHistory [] (visits w F), Passes env w p) →
      isBss (v.desc w) = false → isLoadArea w v = true →
      (w.Segs (v.desc w).Seg).Dumped = false →
      (∀ u ∈ pre, isLoadArea w u = true → (u.desc w).Seg ≠ (v.desc w).Seg) →
        (v.desc w).Seg ∉ (forEach (visit env) pre (w.opened F hd)).W.Out.SegWrites ∧
        (forEach (visit env) (pre ++ [v]) (w.opened F hd)).W.Out.SegWrites
          = (forEach (visit env) pre (w.opened F hd)).W.Out.SegWrites ++ [(v.desc w).Seg] ∧
        (ImgWriteTarget env F w).W.Out.SegWrites.count (v.desc w).Seg = 1) ∧
    ((ImgWriteMem envOk (worldC.opened 0 1) 0).W.Out.Data
        = [0x00, 0x20, 0x03, 0x00, 0x01, 0x02, 0x03] ∧
      (ImgWriteMem envOk (ImgWriteMem envOk (worldC.opened 0 1) 0).W 1).W.Out.Data
        = [0x00, 0x20, 0x03, 0x00, 0x01, 0x02, 0x03] ∧
      (ImgWriteTarget envOk 0 worldC).W.Out.SegWrites = [0]) := by
  refine ⟨?_, ?_, by decide⟩
  · rcases target_cases env F w with h | ⟨hd, h⟩
    · rw [h, h0]
      exact List.nodup_nil
    · rw [h, bind_closeAndReset_SegWrites]
      exact (forEach_preserves (visit env)
        (fun w1 => w1.Out.SegWrites.Nodup ∧ ∀ s ∈ w1.Out.SegWrites, (w1.Segs s).Dumped = true)
        (fun w1 x hw1 => visit_record env w1 x hw1) (visits w F) (w.opened F hd)
        ⟨List.nodup_nil, fun s hs => by simp [World.opened] at hs⟩).1
  · intro hd pre v post hu ho hvs hp hb hl hdump hfirst
    have hpre : ∀ p ∈ withHistory [] pre, Passes env w p := fun p hm =>
      hp p (by rw [hvs, withHistory_append]; exact List.mem_append_left _ hm)
    have hprev : ∀ p ∈ withHistory [] (pre ++ [v]), Passes env w p := fun p hm =>
      hp p (by
        have e : pre ++ v :: post = (pre ++ [v]) ++ post := by simp
        rw [hvs, e, withHistory_append]
        exact List.mem_append_left _ hm)
    obtain ⟨hdec, hnpre, hnpost⟩ := first_load_visit w pre post v hb hl hdump hfirst
    have hone : written w pre [v] = [(v.desc w).Seg] := by
      simp [written, withHistory, hdec]
    rw [opened_loop_SegWrites env w F hd pre hpre, opened_loop_SegWrites env w F hd _ hprev,
      target_visited env F w hd (length_mod_of_nil env hu) ho hp, closeAndReset_Out]
    refine ⟨hnpre, ?_, ?_⟩
    · rw [written_append, List.nil_append, hone]
    · have e : pre ++ v :: post = (pre ++ [v]) ++ post := by simp
      show (written w [] (visits w F)).count (v.desc w).Seg = 1
      rw [hvs, e, written_append, written_append, List.nil_append, List.nil_append, hone,
        List.count_append, List.count_append, List.count_eq_zero_of_not_mem hnpre,
        List.count_eq_zero_of_not_mem hnpost]
      simp

/-- Witness of C2: scenario A with its memory area listed twice; the segment
is written on the first visit and skipped on the second. -/
theorem no_segment_written_twice_witness :
    worldTwice.Out.SegWrites = [] ∧
      (ImgWriteTarget envOk 0 worldTwice).W.Out.SegWrites.Nodup ∧
      (ImgWriteTarget envOk 0 worldTwice).W.Out.SegWrites.count 0 = 1 ∧
      (ImgWriteTarget envOk 0 worldTwice).W.Out.Data
        = [0x00, 0x20, 0x03, 0x00, 0x01, 0x02, 0x03] :=
  ⟨rfl, (no_segment_written_twice envOk 0 worldTwice rfl).1,
    ((no_segment_written_twice envOk 0 worldTwice rfl).2.1 1 [] ⟨0, 0⟩ [⟨0, 0⟩] rfl rfl
      (by decide) (by decide) (by decide) (by decide) (by decide) (by decide)).2.2,
    by decide⟩

/-- C3: with `n > 0` unresolved externals (`n` a value of the counter's type
`unsigned`), `ImgWriteTarget` ends with the unresolved-externals error
carrying exactly `n`, whatever the counter held before, and it does so before
the stream is opened: the output stream and the segments are as before the
run.  With no unresolved external the run never ends with that error. -/
theorem unresolved_gate (env : Env) (F : Nat) (w : World) :
    (0 < env.Unresolved.length → env.Unresolved.length < 2 ^ UINT_BITS →
      (ImgWriteTarget env F w).Err
          = some (Failure.UnresolvedExternals env.Unresolved.length) ∧
        (ImgWriteTarget env F w).W.Out = w.Out ∧
        (ImgWriteTarget env F w).W.Segs = w.Segs) ∧
    (env.Unresolved.length = 0 →
      ∀ n, (ImgWriteTarget env F w).Err ≠ some (Failure.UnresolvedExternals n)) := by
  refine ⟨fun hpos hlt => ?_, fun h0 n hn => ?_⟩
  · have hm : env.Unresolved.length % 2 ^ UINT_BITS = env.Unresolved.length :=
      Nat.mod_eq_of_lt hlt
    have hg := target_gate env F w (by rw [hm]; exact hpos)
    rw [hm] at hg
    rw [hg]
    exact ⟨rfl, rfl, rfl⟩
  · have hu : env.Unresolved.length % 2 ^ UINT_BITS = 0 := by rw [h0]; rfl
    cases ho : env.Open with
    | none =>
      rw [target_cannot_open env F w hu ho] at hn
      simp at hn
    | some hd =>
      rcases target_opened_Err env F w hd _ hu ho hn with ⟨h1 | h1, _⟩ | ⟨h1, _⟩
      · obtain ⟨_, _, _, h1⟩ := h1
        cases h1
      · obtain ⟨_, h1⟩ := h1
        cases h1
      · obtain ⟨_, h1⟩ := h1
        cases h1

/-- Witness of C3: one unresolved external, the counter holding 5 before the
run: the error carries 1 and nothing is written. -/
theorem unresolved_gate_witness :
    0 < envOne.Unresolved.length ∧ envOne.Unresolved.length < 2 ^ UINT_BITS ∧
      worldStale.D.Undef = 5 ∧
      (ImgWriteTarget envOne 0 worldStale).Err = some (Failure.UnresolvedExternals 1) ∧
      (ImgWriteTarget envOne 0 worldStale).W.Out = worldStale.Out ∧
      (ImgWriteTarget envOne 0 worldStale).W.Segs = worldStale.Segs :=
  ⟨by decide, by decide, rfl, (unresolved_gate envOne 0 worldStale).1 (by decide) (by decide)⟩

/-- C4 as stated fails: a target with no unresolved external holding a
segment whose address 0x4001 is not a multiple of its load alignment 2, the
segment being BSS: the run returns without the misaligned-segment failure. -/
theorem misaligned_bss_segment_does_not_abort :
    envOk.Unresolved = [] ∧
      (∃ v ∈ visits worldMisBss 0, (v.desc worldMisBss).Addr % (v.desc worldMisBss).LoadAlignment
        ≠ 0) ∧
      (ImgWriteTarget envOk 0 worldMisBss).Err = none :=
  ⟨rfl, ⟨⟨0, 0⟩, by decide, by decide⟩, by decide⟩

/-- C4 amended: with no unresolved external and the stream open, at the first
visit that passes the write decision with an address that is not a multiple of
the load alignment (no earlier visit ending the run), `ImgWriteTarget` ends
with the misaligned-segment failure for that segment; the output emitted
before it is the image of the earlier visits, and the segment is not among the
segments written. -/
theorem misaligned_write_aborts (env : Env) (F : Nat) (w : World) (hd : Nat)
    (pre post : List Visit) (v : Visit)
    (hu : env.Unresolved = []) (ho : env.Open = some hd)
    (hvs : visits w F = pre ++ v :: post)
    (hpre : ∀ p ∈ withHistory [] pre, Passes env w p)
    (hdec : writeDecision w pre v = true)
    (hrep : (v.desc w).Representable) (hmis : ¬ (v.desc w).Aligned) :
    (ImgWriteTarget env F w).Err
        = some (Failure.InvalidAlignment (v.desc w).Name (v.desc w).Addr
            (v.desc w).LoadAlignment) ∧
      (ImgWriteTarget env F w).W.Out.Data = image env w [] pre ∧
      (v.desc w).Seg ∉ (ImgWriteTarget env F w).W.Out.SegWrites := by
  have hc : ((v.desc w).Addr != AlignAddr (v.desc w).Addr (v.desc w).LoadAlignment) = true := by
    rw [check_eq _ hrep]; simp [hmis]
  have hrun : ImgWriteTarget env F w
      = Outcome.mk
          (some (Failure.InvalidAlignment (v.desc w).Name (v.desc w).Addr
            (v.desc w).LoadAlignment))
          (w.visited env F hd pre) := by
    rw [target_opened env F w hd (length_mod_of_nil env hu) ho, hvs, forEach_append,
      opened_loop_ok env w F hd pre hpre, Outcome.bind_ok]
    simp only [forEach]
    have hv := visit_misaligned env (w.opened F hd) pre v
      { IsOpen := true, Data := image env w [] pre, SegWrites := written w [] pre } hdec hc
    have e : w.visited env F hd pre = (w.opened F hd).reached pre
      { IsOpen := true, Data := image env w [] pre, SegWrites := written w [] pre } := rfl
    rw [e, hv]
    rfl
  rw [hrun]
  refine ⟨rfl, rfl, ?_⟩
  simp only [writeDecision, Bool.and_eq_true, Bool.not_eq_true', bne_eq_false_iff_eq] at hdec
  obtain ⟨⟨hb, hl⟩, hdump⟩ := hdec
  simp only [dumpedAt, Bool.or_eq_false_iff, List.any_eq_false] at hdump
  have hfirst : ∀ u ∈ pre, isLoadArea w u = true → (u.desc w).Seg ≠ (v.desc w).Seg := by
    intro u hu2 hlu heq
    have := hdump.2 u hu2
    simp [hlu, heq] at this
  have hb2 : isBss (v.desc w) = false := by simpa using hb
  exact (first_load_visit w pre post v hb2 hl hdump.1 hfirst).2.1

/-- Witness of C4 amended: scenario A with the segment at 0x2001 and load
alignment 2. -/
theorem misaligned_write_aborts_witness :
    envOk.Unresolved = [] ∧ ¬ (worldMis.Descs 0).Aligned ∧
      (ImgWriteTarget envOk 0 worldMis).Err = some (Failure.InvalidAlignment 0 0x2001 2) ∧
      (ImgWriteTarget envOk 0 worldMis).W.Out.Data = [] ∧
      0 ∉ (ImgWriteTarget envOk 0 worldMis).W.Out.SegWrites :=
  ⟨rfl, by decide,
    misaligned_write_aborts envOk 0 worldMis 1 [] [] ⟨0, 0⟩ rfl rfl (by decide) (by decide)
      (by decide) (by decide) (by decide)⟩

/-- C5: with no unresolved external, the stream opening and closing without
error, every visit that passes the write decision aligned (address and
alignment being `unsigned long` values, the alignment at least 1) and
`SegWrite` yielding exactly `Size` bytes for each segment written,
`ImgWriteTarget` returns and the length of the output is the sum of
`4 + Size` over the segments written. -/
theorem output_length (env : Env) (F : Nat) (w : World)
    (hu : env.Unresolved = []) (ho : env.Open.isSome = true) (hc : env.CloseOk = true)
    (hal : ∀ p ∈ withHistory [] (visits w F), writeDecision w p.1 p.2 = true →
      (p.2.desc w).Representable ∧ (p.2.desc w).Aligned)
    (henc : ∀ p ∈ withHistory [] (visits w F), writeDecision w p.1 p.2 = true →
      ∃ bytes, env.Content (p.2.desc w).Seg = some bytes ∧
        bytes.length = (w.Segs (p.2.desc w).Seg).Size) :
    (ImgWriteTarget env F w).Err = none ∧
      (ImgWriteTarget env F w).W.Out.Data.length
        = ((ImgWriteTarget env F w).W.Out.SegWrites.map fun s => 4 + (w.Segs s).Size).sum := by
  obtain ⟨hd, ho⟩ := Option.isSome_iff_exists.1 ho
  have hp : ∀ p ∈ withHistory [] (visits w F), Passes env w p := fun p hm hdec => by
    obtain ⟨bytes, hb, _⟩ := henc p hm hdec
    exact ⟨(hal p hm hdec).1, (hal p hm hdec).2, by simp [hb]⟩
  rw [target_visited env F w hd (length_mod_of_nil env hu) ho hp, closeAndReset_Out]
  refine ⟨closeAndReset_Err env _ hc, ?_⟩
  show (image env w [] (visits w F)).length
    = ((written w [] (visits w F)).map fun s => 4 + (w.Segs s).Size).sum
  unfold image written
  generalize withHistory [] (visits w F) = l at henc
  induction l with
  | nil => rfl
  | cons p l ih =>
    have ih2 := ih fun q hq => henc q (List.mem_cons_of_mem _ hq)
    simp only [List.flatMap_cons, List.length_append, List.map_append, List.sum_append, ih2]
    congr 1
    by_cases hdec : writeDecision w p.1 p.2 = true
    · obtain ⟨bytes, hb, hlen⟩ := henc p (List.mem_cons_self _ _) hdec
      simp [hdec, triple, header, hb, hlen]
      omega
    · simp [hdec]

/-- Witness of C5: scenario A, one segment of size 3: 7 bytes. -/
theorem output_length_witness :
    envOk.Unresolved = [] ∧ envOk.CloseOk = true ∧
      (ImgWriteTarget envOk 0 worldA).Err = none ∧
      (ImgWriteTarget envOk 0 worldA).W.Out.Data.length
        = ((ImgWriteTarget envOk 0 worldA).W.Out.SegWrites.map
            fun s => 4 + (worldA.Segs s).Size).sum ∧
      (ImgWriteTarget envOk 0 worldA).W.Out.Data.length = 7 :=
  ⟨rfl, rfl, (output_length envOk 0 worldA rfl rfl rfl (by decide) (by decide)).1,
    (output_length envOk 0 worldA rfl rfl rfl (by decide) (by decide)).2, by decide⟩

/-- C6: a visit of a descriptor flagged BSS, in any area and from any state,
returns and leaves the output stream as it was (no byte is written); when the
area is the load area of the descriptor the segment is marked Dumped by that
visit, it is marked when `ImgWriteMem` returns from an area that is its load
area and lists it, and it is marked at the end of a run that returns and
visits such an area. -/
theorem bss_segment_not_written (env : Env) (w : World) (M I : Nat)
    (hb : isBss (w.Descs I) = true) :
    ((ImgWriteMemBody env M w I).Err = none ∧ (ImgWriteMemBody env M w I).W.Out = w.Out) ∧
    ((w.Descs I).Load = M →
      ((ImgWriteMemBody env M w I).W.Segs (w.Descs I).Seg).Dumped = true) ∧
    ((w.Descs I).Load = M → I ∈ (w.Areas M).SegList → (ImgWriteMem env w M).Err = none →
      ((ImgWriteMem env w M).W.Segs (w.Descs I).Seg).Dumped = true) ∧
    (∀ F, (w.Descs I).Load = M → I ∈ (w.Areas M).SegList → M ∈ (w.Files F).MemoryAreas →
      (ImgWriteTarget env F w).Err = none →
      ((ImgWriteTarget env F w).W.Segs (w.Descs I).Seg).Dumped = true) := by
  have hdec : writeDecision w [] ⟨M, I⟩ = false := by
    have : isBss (Visit.desc w ⟨M, I⟩) = true := hb
    simp [writeDecision, this]
  have hv : ImgWriteMemBody env M w I = Outcome.ok (w.reached [⟨M, I⟩] w.Out) := by
    have h := visit_skip env w [] ⟨M, I⟩ w.Out hdec
    rw [reached_nil] at h
    exact h
  have hload : (w.Descs I).Load = M → isLoadArea w ⟨M, I⟩ = true := fun h => by
    simp [isLoadArea, Visit.desc, h]
  refine ⟨by rw [hv]; exact ⟨rfl, rfl⟩, fun hl => ?_, fun hl hI hret => ?_,
    fun F hl hI hM hret => ?_⟩
  · rw [hv]
    exact dumpedAt_of_mem w [⟨M, I⟩] ⟨M, I⟩ (List.mem_singleton.2 rfl) (hload hl)
  · obtain ⟨out1, h1⟩ := ImgWriteMem_returns env w M hret
    rw [h1]
    exact dumpedAt_of_mem w _ ⟨M, I⟩ (mem_areaVisits w M I hI) (hload hl)
  · obtain ⟨out1, h1, _⟩ := target_returns env F w hret
    rw [h1]
    exact dumpedAt_of_mem w _ ⟨M, I⟩ ((mem_visits w F ⟨M, I⟩).2 ⟨hM, hI⟩) (hload hl)

/-- Witness of C6: scenario B yields an empty output and `B.Dumped = true`. -/
theorem bss_segment_not_written_witness :
    isBss (worldB.Descs 0) = true ∧ (worldB.Segs 0).Dumped = false ∧
      (ImgWriteTarget envOk 0 worldB).Err = none ∧
      (ImgWriteTarget envOk 0 worldB).W.Out.Data = [] ∧
      ((ImgWriteTarget envOk 0 worldB).W.Segs (worldB.Descs 0).Seg).Dumped = true :=
  ⟨by decide, by decide, by decide, by decide,
    (bss_segment_not_written envOk worldB 0 0 (by decide)).2.2.2 0 (by decide) (by decide)
      (by decide) (by decide)⟩

/-- C7: a visit of a segment in a memory area that is not its load area
changes nothing, from any state (Dumped or not, BSS or not): it returns, the
output stream has no new byte and every Dumped flag is as before. -/
theorem non_load_area_visit (env : Env) (w : World) (M I : Nat)
    (h : (w.Descs I).Load ≠ M) :
    ImgWriteMemBody env M w I = Outcome.ok w := by
  have hl : ((w.Descs I).Load == M) = false := by simpa using h
  simp [ImgWriteMemBody, DoWrite, hl, Outcome.bind_ok]

/-- Witness of C7: scenario C, the segment C met in Area2 (pointer 1), after
Area1 has been written and before. -/
theorem non_load_area_visit_witness :
    (worldC.Descs 0).Load ≠ 1 ∧
      ImgWriteMemBody envOk 1 (worldC.opened 0 1) 0 = Outcome.ok (worldC.opened 0 1) ∧
      (ImgWriteMemBody envOk 1 (ImgWriteMem envOk (worldC.opened 0 1) 0).W 0).W.Out.Data
        = (ImgWriteMem envOk (worldC.opened 0 1) 0).W.Out.Data :=
  ⟨by decide, non_load_area_visit envOk (worldC.opened 0 1) 1 0 (by decide), by decide⟩

/-- C8: a visit of the descriptor `I` in the area `M` that returns leaves
`Dumped` of its segment equal to (`Dumped` before the visit) or (the load
area is `M`), whether or not bytes were written, and leaves the flag of every
other segment as it was; after a run that returns, the flag of a segment is
set exactly when it was set before the run or the segment is listed in an
area of the file that is its load area.  In scenario B the segment is marked
and nothing was written. -/
theorem dumped_update (env : Env) (w : World) :
    (∀ M I, (ImgWriteMemBody env M w I).Err = none →
      ((ImgWriteMemBody env M w I).W.Segs (w.Descs I).Seg).Dumped
          = ((w.Segs (w.Descs I).Seg).Dumped || ((w.Descs I).Load == M)) ∧
        ∀ s, s ≠ (w.Descs I).Seg →
          ((ImgWriteMemBody env M w I).W.Segs s).Dumped = (w.Segs s).Dumped) ∧
    (∀ F, (ImgWriteTarget env F w).Err = none → ∀ s,
      (((ImgWriteTarget env F w).W.Segs s).Dumped = true ↔
        ((w.Segs s).Dumped = true ∨
          ∃ M ∈ (w.Files F).MemoryAreas, ∃ I ∈ (w.Areas M).SegList,
            (w.Descs I).Seg = s ∧ (w.Descs I).Load = M))) ∧
    (((ImgWriteTarget envOk 0 worldB).W.Segs 0).Dumped = true ∧
      (ImgWriteTarget envOk 0 worldB).W.Out.SegWrites = []) := by
  refine ⟨fun M I hret => ?_, fun F hret s => ?_, by decide⟩
  · have hr : (visit env (w.reached [] w.Out) ⟨M, I⟩).Err = none := by
      rw [reached_nil]; exact hret
    obtain ⟨out1, hv, _⟩ := visit_returns env w [] ⟨M, I⟩ w.Out hr
    rw [reached_nil] at hv
    have hv2 : ImgWriteMemBody env M w I = Outcome.ok (w.reached [⟨M, I⟩] out1) := hv
    rw [hv2]
    refine ⟨?_, fun s hs => ?_⟩
    · simp [Outcome.ok, World.reached, dumpedAt, isLoadArea, Visit.desc]
    · have hs2 : ¬ (w.Descs I).Seg = s := fun e => hs e.symm
      simp [Outcome.ok, World.reached, dumpedAt, isLoadArea, Visit.desc, hs2]
  · obtain ⟨out1, h1, _⟩ := target_returns env F w hret
    rw [h1]
    simp only [dumpedAt, Bool.or_eq_true, List.any_eq_true, Bool.and_eq_true, beq_iff_eq,
      isLoadArea, Visit.desc]
    constructor
    · rintro (h | ⟨v, hv, hl, hs⟩)
      · exact Or.inl h
      · obtain ⟨hM, hI⟩ := (mem_visits w F v).1 hv
        exact Or.inr ⟨v.M, hM, v.I, hI, hs, hl⟩
    · rintro (h | ⟨M, hM, I, hI, hs, hl⟩)
      · exact Or.inl h
      · exact Or.inr ⟨⟨M, I⟩, (mem_visits w F ⟨M, I⟩).2 ⟨hM, hI⟩, hl, hs⟩

/-- Witness of C8: scenario A: the visit of the segment in its load area
returns and marks it; the run returns and the segment is marked. -/
theorem dumped_update_witness :
    (ImgWriteMemBody envOk 0 (worldA.opened 0 1) 0).Err = none ∧
      ((ImgWriteMemBody envOk 0 (worldA.opened 0 1) 0).W.Segs 0).Dumped = true ∧
      (ImgWriteTarget envOk 0 worldA).Err = none ∧
      ((ImgWriteTarget envOk 0 worldA).W.Segs 0).Dumped = true :=
  ⟨by decide,
    ((dumped_update envOk (worldA.opened 0 1)).1 0 0 (by decide)).1.trans (by decide),
    by decide,
    ((dumped_update envOk worldA).2.1 0 (by decide) 0).2
      (Or.inr ⟨0, by decide, 0, by decide, by decide, by decide⟩)⟩

/-- C9 as stated fails: the run of scenario A with the segment misaligned ends
with the misaligned-segment failure, and the run of scenario A with a failing
`SegWrite` ends with the encoding error, the stream being open in both. -/
theorem abort_leaves_stream_open :
    ((ImgWriteTarget envOk 0 worldMis).Err = some (Failure.InvalidAlignment 0 0x2001 2) ∧
      (ImgWriteTarget envOk 0 worldMis).W.Out.IsOpen = true) ∧
    ((ImgWriteTarget envNoContent 0 worldA).Err = some (Failure.EncodingError 0) ∧
      (ImgWriteTarget envNoContent 0 worldA).W.Out.IsOpen = true) := by
  decide

/-- C9 amended: when `ImgWriteTarget` returns, and when it ends because
`fclose` failed, the stream has been closed (and on return `D->F` is null);
when it ends with the misaligned-segment failure or with an encoding error
the stream is still open. -/
theorem stream_closed_on_return (env : Env) (F : Nat) (w : World) :
    ((ImgWriteTarget env F w).Err = none →
      (ImgWriteTarget env F w).W.Out.IsOpen = false ∧ (ImgWriteTarget env F w).W.D.F = none) ∧
    (∀ n, (ImgWriteTarget env F w).Err = some (Failure.CannotWrite n) →
      (ImgWriteTarget env F w).W.Out.IsOpen = false) ∧
    (∀ n a l, (ImgWriteTarget env F w).Err = some (Failure.InvalidAlignment n a l) →
      (ImgWriteTarget env F w).W.Out.IsOpen = true) ∧
    (∀ s, (ImgWriteTarget env F w).Err = some (Failure.EncodingError s) →
      (ImgWriteTarget env F w).W.Out.IsOpen = true) := by
  have key : ∀ e, (ImgWriteTarget env F w).Err = some e →
      (∃ n, e = Failure.UnresolvedExternals n) ∨ (∃ n, e = Failure.CannotOpen n) ∨
      (((∃ n a l, e = Failure.InvalidAlignment n a l) ∨ (∃ s, e = Failure.EncodingError s)) ∧
        (ImgWriteTarget env F w).W.Out.IsOpen = true) ∨
      ((∃ n, e = Failure.CannotWrite n) ∧ (ImgWriteTarget env F w).W.Out.IsOpen = false) := by
    intro e he
    by_cases hu : env.Unresolved.length % 2 ^ UINT_BITS = 0
    · cases ho : env.Open with
      | none =>
        rw [target_cannot_open env F w hu ho] at he
        simp only [Option.some.injEq] at he
        exact Or.inr (Or.inl ⟨_, he.symm⟩)
      | some hd => exact Or.inr (Or.inr (target_opened_Err env F w hd e hu ho he))
    · rw [target_gate env F w (Nat.pos_of_ne_zero hu)] at he
      simp only [Option.some.injEq] at he
      exact Or.inl ⟨_, he.symm⟩
  refine ⟨fun h => ?_, fun n h => ?_, fun n a l h => ?_, fun s h => ?_⟩
  · obtain ⟨out1, h1, h2⟩ := target_returns env F w h
    rw [h1]
    exact ⟨h2, rfl⟩
  · rcases key _ h with ⟨_, h1⟩ | ⟨_, h1⟩ | ⟨⟨_, _, _, h1⟩ | ⟨_, h1⟩, _⟩ | ⟨_, h2⟩
    · cases h1
    · cases h1
    · cases h1
    · cases h1
    · exact h2
  · rcases key _ h with ⟨_, h1⟩ | ⟨_, h1⟩ | ⟨_, h2⟩ | ⟨⟨_, h1⟩, _⟩
    · cases h1
    · cases h1
    · exact h2
    · cases h1
  · rcases key _ h with ⟨_, h1⟩ | ⟨_, h1⟩ | ⟨_, h2⟩ | ⟨⟨_, h1⟩, _⟩
    · cases h1
    · cases h1
    · exact h2
    · cases h1

/-- Witness of C9 amended: the run of scenario A returns with the stream
closed. -/
theorem stream_closed_on_return_witness :
    (ImgWriteTarget envOk 0 worldA).Err = none ∧
      (ImgWriteTarget envOk 0 worldA).W.Out.IsOpen = false ∧
      (ImgWriteTarget envOk 0 worldA).W.D.F = none :=
  ⟨by decide, (stream_closed_on_return envOk 0 worldA).1 (by decide)⟩

/-- C10: after a run that returns, whatever the descriptor held before, it
equals a freshly created one (`F` and `Filename` null, `Undef` zero), and the
Dumped flags are those the visits left: a segment is marked exactly when it
was marked before the run or one of the visits met it in its load area. -/
theorem descriptor_reset (env : Env) (F : Nat) (w : World)
    (h : (ImgWriteTarget env F w).Err = none) :
    (ImgWriteTarget env F w).W.D = NewImgDesc ∧
      ∀ s, ((ImgWriteTarget env F w).W.Segs s).Dumped
        = ((w.Segs s).Dumped ||
            (visits w F).any fun u => isLoadArea w u && ((u.desc w).Seg == s)) := by
  obtain ⟨out1, h1, _⟩ := target_returns env F w h
  rw [h1]
  exact ⟨rfl, fun _ => rfl⟩

/-- Witness of C10: scenario A run with a descriptor that held other values:
afterwards it is as new and the segment is marked. -/
theorem descriptor_reset_witness :
    worldStale.D = ⟨5, some 9, some 9⟩ ∧ (ImgWriteTarget envOk 0 worldStale).Err = none ∧
      (ImgWriteTarget envOk 0 worldStale).W.D = NewImgDesc ∧
      ((ImgWriteTarget envOk 0 worldStale).W.Segs 0).Dumped = true :=
  ⟨rfl, by decide, (descriptor_reset envOk 0 worldStale (by decide)).1,
    ((descriptor_reset envOk 0 worldStale (by decide)).2 0).trans (by decide)⟩

theorem closeAndReset_layout (env : Env) (w5 : World) :
    (closeAndReset env w5).W.Files = w5.Files ∧ (closeAndReset env w5).W.Areas = w5.Areas ∧
      (closeAndReset env w5).W.Descs = w5.Descs ∧ (closeAndReset env w5).W.Segs = w5.Segs := by
  cases hc : env.CloseOk <;> simp [closeAndReset, fclose, hc, Error, Outcome.ok]

theorem bind_closeAndReset_layout (env : Env) (o : Outcome) :
    (o.bind (closeAndReset env)).W.Files = o.W.Files ∧
      (o.bind (closeAndReset env)).W.Areas = o.W.Areas ∧
      (o.bind (closeAndReset env)).W.Descs = o.W.Descs ∧
      (o.bind (closeAndReset env)).W.Segs = o.W.Segs := by
  obtain ⟨e, w1⟩ := o
  cases e
  · exact closeAndReset_layout env w1
  · exact ⟨rfl, rfl, rfl, rfl⟩

/-- C11: whatever the collaborators answer and however the run ends,
`ImgWriteTarget` leaves the stores of files (the lists of memory areas), of
memory areas (the segment lists and their order) and of segment descriptors
(name, address, load alignment, flags, load area) as they were, leaves the
size and the address of every segment as they were, and never clears a Dumped
flag: a flag that was set before the run is set after it. -/
theorem layout_unchanged (env : Env) (F : Nat) (w : World) :
    (ImgWriteTarget env F w).W.Files = w.Files ∧
      (ImgWriteTarget env F w).W.Areas = w.Areas ∧
      (ImgWriteTarget env F w).W.Descs = w.Descs ∧
      ∀ s, ((ImgWriteTarget env F w).W.Segs s).Size = (w.Segs s).Size ∧
        ((ImgWriteTarget env F w).W.Segs s).PC = (w.Segs s).PC ∧
        ((w.Segs s).Dumped = true → ((ImgWriteTarget env F w).W.Segs s).Dumped = true) := by
  by_cases hu : env.Unresolved.length % 2 ^ UINT_BITS = 0
  · cases ho : env.Open with
    | none =>
      rw [target_cannot_open env F w hu ho]
      exact ⟨rfl, rfl, rfl, fun _ => ⟨rfl, rfl, id⟩⟩
    | some hd =>
      rw [target_opened env F w hd hu ho]
      obtain ⟨h1, h2, h3, h4⟩ :=
        bind_closeAndReset_layout env (forEach (visit env) (visits w F) (w.opened F hd))
      obtain ⟨f1, f2, f3, _, f5⟩ := loop_frame env (visits w F) (w.opened F hd)
      rw [h1, h2, h3, h4]
      exact ⟨f1, f2, f3, f5⟩
  · rw [target_gate env F w (Nat.pos_of_ne_zero hu)]
    exact ⟨rfl, rfl, rfl, fun _ => ⟨rfl, rfl, id⟩⟩

theorem DoWrite_eq (w : World) (M I : Nat) :
    DoWrite w M (w.Descs I) = writeDecision w [] ⟨M, I⟩ := by
  have h := DoWrite_reached w [] ⟨M, I⟩ w.Out
  rw [reached_nil] at h
  exact h

theorem DoWrite_iff (w : World) (M : Nat) (S : SegDesc) :
    DoWrite w M S = true ↔
      isBss S = false ∧ S.Load = M ∧ (w.Segs S.Seg).Dumped = false := by
  simp [DoWrite, isBss, and_assoc]

/-- C12: the alignment test is applied exactly at the visits at which the
write decision holds, and there, for an address and an alignment that are
`unsigned long` values with the alignment at least 1, it fails exactly when
the address is not a multiple of the alignment: a visit ends with the
misaligned-segment failure if and only if `DoWrite` holds (not BSS, visited in
its load area, not Dumped) and `Addr % LoadAlignment != 0`.  An aligned
segment never ends the run that way, and the visit of a segment that is BSS,
outside its load area or already Dumped returns, aligned or not. -/
theorem alignment_check (env : Env) (w : World) (M I : Nat) :
    ((w.Descs I).Representable →
      ((∃ n a l, (ImgWriteMemBody env M w I).Err = some (Failure.InvalidAlignment n a l)) ↔
        ((isBss (w.Descs I) = false ∧ (w.Descs I).Load = M ∧
            (w.Segs (w.Descs I).Seg).Dumped = false) ∧
          (w.Descs I).Addr % (w.Descs I).LoadAlignment ≠ 0))) ∧
    ((w.Descs I).Representable → (w.Descs I).Addr % (w.Descs I).LoadAlignment = 0 →
      ∀ n a l, (ImgWriteMemBody env M w I).Err ≠ some (Failure.InvalidAlignment n a l)) ∧
    ((isBss (w.Descs I) = true ∨ (w.Descs I).Load ≠ M ∨
        (w.Segs (w.Descs I).Seg).Dumped = true) →
      (ImgWriteMemBody env M w I).Err = none) := by
  have hfail : ∀ n a l,
      (ImgWriteMemBody env M w I).Err = some (Failure.InvalidAlignment n a l) →
      DoWrite w M (w.Descs I) = true ∧
        ((w.Descs I).Addr != AlignAddr (w.Descs I).Addr (w.Descs I).LoadAlignment) = true := by
    intro n a l h
    have h2 : (visit env (w.reached [] w.Out) ⟨M, I⟩).Err
        = some (Failure.InvalidAlignment n a l) := by
      rw [reached_nil]; exact h
    obtain ⟨hd, hc, _⟩ := visit_InvalidAlignment env w [] ⟨M, I⟩ w.Out n a l h2
    exact ⟨by rw [DoWrite_eq]; exact hd, hc⟩
  refine ⟨fun hrep => ⟨?_, ?_⟩, fun hrep hal n a l h => ?_, fun hno => ?_⟩
  · rintro ⟨n, a, l, h⟩
    obtain ⟨hd, hc⟩ := hfail n a l h
    rw [check_eq _ hrep] at hc
    refine ⟨(DoWrite_iff w M _).1 hd, ?_⟩
    simpa [SegDesc.Aligned] using hc
  · rintro ⟨hd, hmis⟩
    have hd2 : writeDecision w [] ⟨M, I⟩ = true := by
      rw [← DoWrite_eq]; exact (DoWrite_iff w M _).2 hd
    have hc : ((w.Descs I).Addr != AlignAddr (w.Descs I).Addr (w.Descs I).LoadAlignment)
        = true := by
      rw [check_eq _ hrep]; simpa [SegDesc.Aligned] using hmis
    have hv := visit_misaligned env w [] ⟨M, I⟩ w.Out hd2 hc
    rw [reached_nil] at hv
    exact ⟨_, _, _, congrArg Outcome.Err hv⟩
  · obtain ⟨_, hc⟩ := hfail n a l h
    rw [check_eq _ hrep] at hc
    simp [SegDesc.Aligned, hal] at hc
  · have hd : writeDecision w [] ⟨M, I⟩ = false := by
      rw [← DoWrite_eq]
      cases hdw : DoWrite w M (w.Descs I) with
      | false => rfl
      | true =>
        obtain ⟨h1, h2, h3⟩ := (DoWrite_iff w M _).1 hdw
        rcases hno with h | h | h
        · rw [h1] at h; cases h
        · exact absurd h2 h
        · rw [h3] at h; cases h
    have hv := visit_skip env w [] ⟨M, I⟩ w.Out hd
    rw [reached_nil] at hv
    exact congrArg Outcome.Err hv

/-- Witness of C12: the misaligned segment of scenario A at 0x2001 ends its
visit with the failure; the misaligned BSS segment at 0x4001 does not. -/
theorem alignment_check_witness :
    (worldMis.Descs 0).Representable ∧
      (worldMis.Descs 0).Addr % (worldMis.Descs 0).LoadAlignment ≠ 0 ∧
      (∃ n a l, (ImgWriteMemBody envOk 0 (worldMis.opened 0 1) 0).Err
        = some (Failure.InvalidAlignment n a l)) ∧
      (worldMisBss.Descs 0).Addr % (worldMisBss.Descs 0).LoadAlignment ≠ 0 ∧
      (ImgWriteMemBody envOk 0 (worldMisBss.opened 0 1) 0).Err = none :=
  ⟨by decide, by decide,
    ((alignment_check envOk (worldMis.opened 0 1) 0 0).1 (by decide)).2
      ⟨⟨by decide, by decide, by decide⟩, by decide⟩,
    by decide,
    (alignment_check envOk (worldMisBss.opened 0 1) 0 0).2.2 (Or.inl (by decide))⟩

/-- C13 as stated fails: in the first scenario the descriptor address 0x2000
passes the alignment test for load alignment 2, the segment is written, and
the address in its header is `PC` = 0x2001, which is not a multiple of 2; in
the second the address 0x10002 (descriptor and `PC` alike) is a multiple of
the load alignment 3, and the address field `02 00` of the header decodes to
2, which is not. -/
theorem header_address_not_the_verified_one :
    ((worldSplit.Descs 0).Addr = 0x2000 ∧ (worldSplit.Descs 0).LoadAlignment = 2 ∧
      (worldSplit.Descs 0).Addr % (worldSplit.Descs 0).LoadAlignment = 0 ∧
      (worldSplit.Segs 0).PC = 0x2001 ∧
      (ImgWriteTarget envOk 0 worldSplit).Err = none ∧
      (ImgWriteTarget envOk 0 worldSplit).W.Out.Data
        = [0x01, 0x20, 0x03, 0x00, 0x01, 0x02, 0x03] ∧
      decode16 0x01 0x20 % (worldSplit.Descs 0).LoadAlignment ≠ 0) ∧
    ((worldWrap.Descs 0).Addr = 0x10002 ∧ (worldWrap.Segs 0).PC = 0x10002 ∧
      (worldWrap.Descs 0).Addr % (worldWrap.Descs 0).LoadAlignment = 0 ∧
      (ImgWriteTarget envOk 0 worldWrap).Err = none ∧
      (ImgWriteTarget envOk 0 worldWrap).W.Out.Data
        = [0x02, 0x00, 0x03, 0x00, 0x01, 0x02, 0x03] ∧
      decode16 0x02 0x00 % (worldWrap.Descs 0).LoadAlignment ≠ 0) := by
  decide

/-- C13 amended: at a visit that writes a segment whose `PC` equals the
address of its descriptor and is below 65536 (address and alignment being
`unsigned long` values, the alignment at least 1), the descriptor address
passed the alignment test (`Addr % LoadAlignment = 0`), the stream gains the
header and the content, and the address field of the header decodes to that
verified address, a multiple of the load alignment. -/
theorem header_address_verified (env : Env) (w : World) (M I : Nat)
    (hw : DoWrite w M (w.Descs I) = true)
    (hret : (ImgWriteMemBody env M w I).Err = none)
    (hrep : (w.Descs I).Representable)
    (heq : (w.Segs (w.Descs I).Seg).PC = (w.Descs I).Addr)
    (hlt : (w.Segs (w.Descs I).Seg).PC < 65536) :
    (w.Descs I).Addr % (w.Descs I).LoadAlignment = 0 ∧
      ∃ a0 a1 s0 s1 bytes,
        (ImgWriteMemBody env M w I).W.Out.Data = w.Out.Data ++ ([a0, a1, s0, s1] ++ bytes) ∧
        env.Content (w.Descs I).Seg = some bytes ∧
        decode16 a0 a1 = (w.Descs I).Addr ∧
        decode16 a0 a1 % (w.Descs I).LoadAlignment = 0 := by
  have hd : writeDecision w [] ⟨M, I⟩ = true := by rw [← DoWrite_eq]; exact hw
  have hret2 : (visit env w ⟨M, I⟩).Err = none := hret
  rcases visit_cases env w ⟨M, I⟩ with ⟨h1, _⟩ | ⟨_, b, hb, h1⟩ | ⟨_, _, h1⟩ | ⟨_, _, h1⟩
  · rw [hd] at h1; cases h1
  · have hal : (w.Descs I).Addr % (w.Descs I).LoadAlignment = 0 := by
      by_contra hmis
      have hc : ((w.Descs I).Addr != AlignAddr (w.Descs I).Addr (w.Descs I).LoadAlignment)
          = true := by
        rw [check_eq _ hrep]; simpa [SegDesc.Aligned] using hmis
      have hv := visit_misaligned env w [] ⟨M, I⟩ w.Out hd hc
      rw [reached_nil] at hv
      rw [hv] at hret2
      cases hret2
    have hdec : decode16 ((w.Segs (w.Descs I).Seg).PC % 256)
        ((w.Segs (w.Descs I).Seg).PC / 256 % 256) = (w.Descs I).Addr := by
      rw [← heq]; unfold decode16; omega
    refine ⟨hal, _, _, _, _, b, congrArg (fun o => o.W.Out.Data) h1, hb, hdec, ?_⟩
    rw [hdec]; exact hal
  · rw [h1] at hret2; cases hret2
  · rw [h1] at hret2; cases hret2

/-- Witness of C13 amended: scenario A, descriptor address and `PC` both
0x2000: the address field decodes to 0x2000. -/
theorem header_address_verified_witness :
    ((worldA.opened 0 1).Segs 0).PC = ((worldA.opened 0 1).Descs 0).Addr ∧
      (ImgWriteMemBody envOk 0 (worldA.opened 0 1) 0).Err = none ∧
      ((worldA.opened 0 1).Descs 0).Addr % ((worldA.opened 0 1).Descs 0).LoadAlignment = 0 ∧
      ∃ a0 a1 s0 s1 bytes,
        (ImgWriteMemBody envOk 0 (worldA.opened 0 1) 0).W.Out.Data
          = [] ++ ([a0, a1, s0, s1] ++ bytes) ∧
        envOk.Content 0 = some bytes ∧ decode16 a0 a1 = 0x2000 ∧
        decode16 a0 a1 % 1 = 0 :=
  ⟨by decide, by decide,
    header_address_verified envOk (worldA.opened 0 1) 0 0 (by decide) (by decide) (by decide)
      (by decide) (by decide)⟩

/-- C14 as stated fails: the segment at 0x12000 gets the address field
`00 20`, which decodes to 0x2000; the segment of size 0x10000, with 0x10000
content bytes, gets the size field `00 00`, which decodes to 0. -/
theorem header_fields_hold_16_bits :
    ((worldFar.Segs 0).PC = 0x12000 ∧
      (ImgWriteTarget envOk 0 worldFar).Err = none ∧
      (ImgWriteTarget envOk 0 worldFar).W.Out.Data
        = [0x00, 0x20, 0x03, 0x00, 0x01, 0x02, 0x03] ∧
      decode16 0x00 0x20 ≠ (worldFar.Segs 0).PC) ∧
    ((worldBig.Segs 0).Size = 0x10000 ∧
      envBig.Content 0 = some (List.replicate 0x10000 0) ∧
      (List.replicate 0x10000 0).length = (worldBig.Segs 0).Size ∧
      (ImgWriteTarget envBig 0 worldBig).Err = none ∧
      (ImgWriteTarget envBig 0 worldBig).W.Out.Data
        = [0x00, 0x20, 0x00, 0x00] ++ List.replicate 0x10000 0 ∧
      decode16 0x00 0x00 ≠ (worldBig.Segs 0).Size) :=
  ⟨by decide, rfl, rfl, List.length_replicate _ _, by decide, rfl, by decide⟩

/-- C14 amended: at a visit that writes a segment for which `SegWrite` yields
exactly `Size` bytes, the stream gains a 4-byte header and then the content;
the address field decodes to `PC` modulo 65536 and the size field to `Size`
modulo 65536, so that the header is faithful (address field = `PC`, size
field = number of content bytes that follow) when `PC` and `Size` are below
65536. -/
theorem header_faithful_below_64K (env : Env) (w : World) (M I : Nat) (bytes : List Nat)
    (hw : DoWrite w M (w.Descs I) = true)
    (hret : (ImgWriteMemBody env M w I).Err = none)
    (hb : env.Content (w.Descs I).Seg = some bytes)
    (hlen : bytes.length = (w.Segs (w.Descs I).Seg).Size) :
    ∃ a0 a1 s0 s1,
      (ImgWriteMemBody env M w I).W.Out.Data = w.Out.Data ++ ([a0, a1, s0, s1] ++ bytes) ∧
      (a0 < 256 ∧ a1 < 256 ∧ s0 < 256 ∧ s1 < 256) ∧
      decode16 a0 a1 = (w.Segs (w.Descs I).Seg).PC % 65536 ∧
      decode16 s0 s1 = (w.Segs (w.Descs I).Seg).Size % 65536 ∧
      ((w.Segs (w.Descs I).Seg).PC < 65536 → decode16 a0 a1 = (w.Segs (w.Descs I).Seg).PC) ∧
      ((w.Segs (w.Descs I).Seg).Size < 65536 → decode16 s0 s1 = bytes.length) := by
  have hd : writeDecision w [] ⟨M, I⟩ = true := by rw [← DoWrite_eq]; exact hw
  have hdata : (ImgWriteMemBody env M w I).W.Out.Data
      = w.Out.Data ++ (header w (w.Descs I).Seg ++ bytes) := by
    rcases visit_cases env w ⟨M, I⟩ with ⟨h1, _⟩ | ⟨_, b, hb2, h1⟩ | ⟨_, _, h1⟩ | ⟨_, _, h1⟩
    · rw [hd] at h1; cases h1
    · have e : b = bytes := by
        have hb3 : env.Content (w.Descs I).Seg = some b := hb2
        rw [hb] at hb3
        exact (Option.some.inj hb3).symm
      subst e
      exact congrArg (fun o => o.W.Out.Data) h1
    · have h2 := congrArg Outcome.Err h1
      have h3 : (visit env w ⟨M, I⟩).Err = none := hret
      rw [h3] at h2
      cases h2
    · have h2 := congrArg Outcome.Err h1
      have h3 : (visit env w ⟨M, I⟩).Err = none := hret
      rw [h3] at h2
      cases h2
  refine ⟨(w.Segs (w.Descs I).Seg).PC % 256, (w.Segs (w.Descs I).Seg).PC / 256 % 256,
    (w.Segs (w.Descs I).Seg).Size % 256, (w.Segs (w.Descs I).Seg).Size / 256 % 256,
    hdata, ?_, ?_, ?_, ?_, ?_⟩
  · refine ⟨?_, ?_, ?_, ?_⟩ <;> omega
  · unfold decode16; omega
  · unfold decode16; omega
  · intro h; unfold decode16; omega
  · intro h; rw [hlen]; unfold decode16; omega

/-- Witness of C14 amended: scenario A: the header `00 20 03 00` decodes to
the address 0x2000 and the size 3. -/
theorem header_faithful_below_64K_witness :
    DoWrite (worldA.opened 0 1) 0 ((worldA.opened 0 1).Descs 0) = true ∧
      (ImgWriteMemBody envOk 0 (worldA.opened 0 1) 0).Err = none ∧
      ∃ a0 a1 s0 s1,
        (ImgWriteMemBody envOk 0 (worldA.opened 0 1) 0).W.Out.Data
          = [] ++ ([a0, a1, s0, s1] ++ [1, 2, 3]) ∧
        decode16 a0 a1 = 0x2000 ∧ decode16 s0 s1 = 3 := by
  obtain ⟨a0, a1, s0, s1, h1, _, _, _, h2, h3⟩ :=
    header_faithful_below_64K envOk (worldA.opened 0 1) 0 0 [1, 2, 3] (by decide) (by decide)
      rfl rfl
  exact ⟨by decide, by decide, a0, a1, s0, s1, h1, h2 (by decide), h3 (by decide)⟩

theorem settled_decision (w : World) (F : Nat) (hs : Settled w F) :
    ∀ p ∈ withHistory [] (visits w F), writeDecision w p.1 p.2 = false := by
  intro p hp
  obtain ⟨a, b, h1, _⟩ := mem_withHistory p [] (visits w F) hp
  have hmem : p.2 ∈ visits w F := by rw [h1]; simp
  by_cases hl : isLoadArea w p.2 = true
  · have hdump : dumpedAt w p.1 (p.2.desc w).Seg = true := by
      simp [dumpedAt, hs p.2 hmem hl]
    simp [writeDecision, hdump]
  · simp [writeDecision, hl]

theorem settled_dumpedAt (w : World) (F : Nat) (hs : Settled w F) (s : Nat) :
    dumpedAt w (visits w F) s = (w.Segs s).Dumped := by
  cases hd : (w.Segs s).Dumped with
  | true => simp [dumpedAt, hd]
  | false =>
    simp only [dumpedAt, hd, Bool.false_or, List.any_eq_false, Bool.and_eq_true, beq_iff_eq,
      not_and]
    intro u hu hl hseg
    have := hs u hu hl
    rw [hseg, hd] at this
    cases this

theorem flatMap_nil_of_forall {α β : Type} (l : List α) (f : α → List β)
    (h : ∀ p ∈ l, f p = []) : l.flatMap f = [] := by
  induction l with
  | nil => rfl
  | cons x l ih =>
    rw [List.flatMap_cons, h x (List.mem_cons_self _ _),
      ih fun p hp => h p (List.mem_cons_of_mem _ hp)]
    rfl

theorem reached_same (w : World) (vs : List Visit)
    (h : ∀ s, dumpedAt w vs s = (w.Segs s).Dumped) : w.reached vs w.Out = w := by
  simp [World.reached, h]

/-- A run on a settled state that passes the gate and opens its stream: no
visit writes, and the closing statements run on the state it started in, with
an empty stream. -/
theorem settled_run (env : Env) (F : Nat) (w : World) (hd : Nat) (hs : Settled w F)
    (hu : env.Unresolved.length % 2 ^ UINT_BITS = 0) (ho : env.Open = some hd) :
    ImgWriteTarget env F w = closeAndReset env (w.opened F hd) := by
  have hdec := settled_decision w F hs
  have hp : ∀ p ∈ withHistory [] (visits w F), Passes env w p := fun p hm h => by
    rw [hdec p hm] at h; cases h
  rw [target_visited env F w hd hu ho hp]
  congr 1
  have himg : image env w [] (visits w F) = [] :=
    flatMap_nil_of_forall _ _ fun p hm => by simp [hdec p hm]
  have hwr : written w [] (visits w F) = [] :=
    flatMap_nil_of_forall _ _ fun p hm => by simp [hdec p hm]
  have hseg : ∀ s, dumpedAt (w.opened F hd) (visits w F) s = ((w.opened F hd).Segs s).Dumped :=
    fun s => settled_dumpedAt w F hs s
  unfold World.visited
  rw [himg, hwr]
  exact reached_same (w.opened F hd) (visits w F) hseg

/-- What a run that returns says about the collaborators. -/
theorem target_returns_env (env : Env) (F : Nat) (w : World)
    (h : (ImgWriteTarget env F w).Err = none) :
    env.Unresolved.length % 2 ^ UINT_BITS = 0 ∧ (∃ hd, env.Open = some hd) ∧
      env.CloseOk = true := by
  by_cases hu : env.Unresolved.length % 2 ^ UINT_BITS = 0
  · cases ho : env.Open with
    | none =>
      rw [target_cannot_open env F w hu ho] at h
      simp at h
    | some hd =>
      refine ⟨hu, ⟨hd, rfl⟩, ?_⟩
      rw [target_opened env F w hd hu ho] at h
      obtain ⟨_, h2⟩ := Outcome.bind_Err_none _ _ h
      cases hc : env.CloseOk with
      | true => rfl
      | false => simp [closeAndReset, fclose, hc, Error] at h2
  · rw [target_gate env F w (Nat.pos_of_ne_zero hu)] at h
    simp at h

/-- After a run that returns the state is settled. -/
theorem settled_after_run (env : Env) (F : Nat) (w : World)
    (h : (ImgWriteTarget env F w).Err = none) : Settled (ImgWriteTarget env F w).W F := by
  obtain ⟨out1, h1, _⟩ := target_returns env F w h
  rw [h1]
  intro v hv hl
  exact dumpedAt_of_mem w (visits w F) v hv hl

/-- A run on a settled state, with collaborators that let a run return,
returns, emits nothing, leaves the segments as they are and the state
settled. -/
theorem settled_run_returns (env : Env) (F : Nat) (w : World) (hs : Settled w F)
    (hu : env.Unresolved.length % 2 ^ UINT_BITS = 0) (ho : ∃ hd, env.Open = some hd)
    (hc : env.CloseOk = true) :
    (ImgWriteTarget env F w).Err = none ∧ (ImgWriteTarget env F w).W.Out.Data = [] ∧
      (ImgWriteTarget env F w).W.Out.SegWrites = [] ∧
      (ImgWriteTarget env F w).W.Segs = w.Segs ∧ Settled (ImgWriteTarget env F w).W F := by
  obtain ⟨hd, ho⟩ := ho
  rw [settled_run env F w hd hs hu ho]
  have hr : closeAndReset env (w.opened F hd)
      = Outcome.ok { w with D := NewImgDesc, Out := ⟨false, [], []⟩ } := by
    simp [closeAndReset, fclose, hc, World.opened, NewImgDesc]
  rw [hr]
  exact ⟨rfl, rfl, rfl, rfl, hs⟩

/-- C15: when a run of `ImgWriteTarget` returns, a second run on the same
file, started in the state the first one left (collaborators unchanged),
returns, emits zero bytes, calls `SegWrite` for no segment and leaves every
segment, its Dumped flag included, as it is; and so does every later run:
after `n + 1` runs the next run produces an empty image and changes no
flag. -/
theorem later_runs_emit_nothing (env : Env) (F : Nat) (w : World)
    (h : (ImgWriteTarget env F w).Err = none) :
    ((ImgWriteTarget env F (ImgWriteTarget env F w).W).Err = none ∧
      (ImgWriteTarget env F (ImgWriteTarget env F w).W).W.Out.Data = [] ∧
      (ImgWriteTarget env F (ImgWriteTarget env F w).W).W.Out.SegWrites = [] ∧
      (ImgWriteTarget env F (ImgWriteTarget env F w).W).W.Segs
        = (ImgWriteTarget env F w).W.Segs) ∧
    ∀ n, (ImgWriteTarget env F (afterRuns env F (n + 1) w)).Err = none ∧
      (ImgWriteTarget env F (afterRuns env F (n + 1) w)).W.Out.Data = [] ∧
      (ImgWriteTarget env F (afterRuns env F (n + 1) w)).W.Segs
        = (afterRuns env F (n + 1) w).Segs := by
  obtain ⟨hu, ho, hc⟩ := target_returns_env env F w h
  have hs1 := settled_after_run env F w h
  have hall : ∀ n, Settled (afterRuns env F (n + 1) w) F := by
    intro n
    induction n with
    | zero => exact hs1
    | succ n ih => exact (settled_run_returns env F _ ih hu ho hc).2.2.2.2
  refine ⟨?_, fun n => ?_⟩
  · obtain ⟨a, b, c, d, _⟩ := settled_run_returns env F _ hs1 hu ho hc
    exact ⟨a, b, c, d⟩
  · obtain ⟨a, b, _, d, _⟩ := settled_run_returns env F _ (hall n) hu ho hc
    exact ⟨a, b, d⟩

/-- Witness of C15: scenario A run twice: the second run leaves an empty
stream and the segment marked. -/
theorem later_runs_emit_nothing_witness :
    (ImgWriteTarget envOk 0 worldA).Err = none ∧
      (ImgWriteTarget envOk 0 worldA).W.Out.Data = [0x00, 0x20, 0x03, 0x00, 0x01, 0x02, 0x03] ∧
      (ImgWriteTarget envOk 0 (ImgWriteTarget envOk 0 worldA).W).W.Out.Data = [] ∧
      ((ImgWriteTarget envOk 0 (ImgWriteTarget envOk 0 worldA).W).W.Segs 0).Dumped = true :=
  ⟨by decide, by decide, (later_runs_emit_nothing envOk 0 worldA (by decide)).1.2.1,
    by decide⟩

/-- A run that ends with the misaligned-segment failure: it passed the gate,
opened its stream, and its loop over the visits ended with that failure. -/
theorem target_InvalidAlignment (env : Env) (F : Nat) (w : World) (n a l : Nat)
    (h : (ImgWriteTarget env F w).Err = some (Failure.InvalidAlignment n a l)) :
    ∃ hd, env.Open = some hd ∧
      ImgWriteTarget env F w = forEach (visit env) (visits w F) (w.opened F hd) := by
  by_cases hu : env.Unresolved.length % 2 ^ UINT_BITS = 0
  · cases ho : env.Open with
    | none =>
      rw [target_cannot_open env F w hu ho] at h
      simp at h
    | some hd =>
      refine ⟨hd, rfl, ?_⟩
      rw [target_opened env F w hd hu ho] at h ⊢
      rcases Outcome.bind_Err_some _ _ _ h with ⟨_, h2⟩ | ⟨_, h2⟩
      · exact h2
      · have := closeAndReset_Err_kind env _ _ h2
        cases this
  · rw [target_gate env F w (Nat.pos_of_ne_zero hu)] at h
    simp at h

/-- C16: when a run ends with the misaligned-segment failure, it ends at a
visit `v` at which the alignment test failed, the visits `pre` before it
having returned; the bytes in the stream are those the loop leaves after the
visits `pre` alone (one triple per earlier writing visit), every segment met
in its load area by one of the visits `pre` is marked Dumped, and the Dumped
flag of the offending segment is false. -/
theorem misaligned_abort_not_atomic (env : Env) (F : Nat) (w : World) (n a l : Nat)
    (h : (ImgWriteTarget env F w).Err = some (Failure.InvalidAlignment n a l)) :
    ∃ hd pre v post, env.Open = some hd ∧ visits w F = pre ++ v :: post ∧
      (n = (v.desc w).Name ∧ a = (v.desc w).Addr ∧ l = (v.desc w).LoadAlignment) ∧
      (v.desc w).Addr ≠ AlignAddr (v.desc w).Addr (v.desc w).LoadAlignment ∧
      (forEach (visit env) pre (w.opened F hd)).Err = none ∧
      (ImgWriteTarget env F w).W.Out.Data
        = (forEach (visit env) pre (w.opened F hd)).W.Out.Data ∧
      (ImgWriteTarget env F w).W.Out.Data = image env w [] pre ∧
      (∀ u ∈ pre, isLoadArea w u = true →
        ((ImgWriteTarget env F w).W.Segs (u.desc w).Seg).Dumped = true) ∧
      ((ImgWriteTarget env F w).W.Segs (v.desc w).Seg).Dumped = false := by
  obtain ⟨hd, ho, hrun⟩ := target_InvalidAlignment env F w n a l h
  rw [hrun] at h ⊢
  rw [← opened_reached_nil w F hd] at h
  obtain ⟨pre, v, post, hvs, hok, hfail, herr⟩ :=
    loop_fails env (w.opened F hd) (visits w F) [] _ _ h
  rw [opened_reached_nil] at hok hfail
  simp only [List.nil_append] at hok hfail herr
  obtain ⟨hdec, hc, hn, ha, hl, hW⟩ := visit_InvalidAlignment env (w.opened F hd) pre v _ n a l herr
  have hfinal : (forEach (visit env) (visits w F) (w.opened F hd)).W
      = (w.opened F hd).reached pre
          (outAfter env (w.opened F hd) [] pre { IsOpen := true, Data := [], SegWrites := [] }) := by
    rw [hfail]; exact hW
  refine ⟨hd, pre, v, post, ho, hvs, ⟨hn, ha, hl⟩, ?_, ?_, ?_, ?_, ?_, ?_⟩
  · simpa using hc
  · rw [hok]; rfl
  · rw [hfinal, hok]; rfl
  · rw [hfinal]
    simp only [World.reached, outAfter, List.nil_append]
    rfl
  · intro u hu hlu
    rw [hfinal]
    exact dumpedAt_of_mem (w.opened F hd) pre u hu hlu
  · rw [hfinal]
    simp only [writeDecision, Bool.and_eq_true, Bool.not_eq_true'] at hdec
    exact hdec.2

/-- Witness of C16: segment A followed by a misaligned segment: the run ends
with the failure at the second visit, the triple of A is in the stream, A is
marked Dumped and the offending segment is not. -/
theorem misaligned_abort_not_atomic_witness :
    (ImgWriteTarget envOk 0 worldPartial).Err = some (Failure.InvalidAlignment 1 0x3001 2) ∧
      (ImgWriteTarget envOk 0 worldPartial).W.Out.Data
        = [0x00, 0x20, 0x03, 0x00, 0x01, 0x02, 0x03] ∧
      ((ImgWriteTarget envOk 0 worldPartial).W.Segs 0).Dumped = true ∧
      ((ImgWriteTarget envOk 0 worldPartial).W.Segs 1).Dumped = false ∧
      ∃ hd pre v post, envOk.Open = some hd ∧ visits worldPartial 0 = pre ++ v :: post ∧
        (ImgWriteTarget envOk 0 worldPartial).W.Out.Data = image envOk worldPartial [] pre ∧
        ((ImgWriteTarget envOk 0 worldPartial).W.Segs (v.desc worldPartial).Seg).Dumped
          = false := by
  obtain ⟨hd, pre, v, post, h1, h2, _, _, _, _, h3, _, h4⟩ :=
    misaligned_abort_not_atomic envOk 0 worldPartial 1 0x3001 2 (by decide)
  exact ⟨by decide, by decide, by decide, by decide, hd, pre, v, post, h1, h2, h3, h4⟩

end Ld65
